import Mathlib

/-!
Verification of the Answer Evaluation & Scoring Engine
(`scripts/app/evaluators.py` and `scripts/app/scoring.py`).

The Python code is shallowly embedded: points and params become structures
holding the fields the code reads (`dict.get` becomes `Option` plus the
code's defaults), Python floats become `Rat`, Python exceptions become
`Except PyErr`, and the wall-clock durations measured by
`time.perf_counter` become an explicit oracle `durs : Nat -> Rat` giving
the measured duration of each evaluation step.  Calls into the Python
standard library (`re`, `difflib`) are modelled by executable Lean
functions covering the subset of behaviour the engine exercises; the
comments on those functions state the modelled subset.
-/

namespace QuantaGlia

/-- A single-quote character, used when rebuilding the Python note strings. -/
def sq : String := String.singleton (Char.ofNat 39)

/-- ASCII lowercasing of one character; models Python `str.lower` on the
ASCII subset that the engine's rubrics use. -/
def lowerChar (c : Char) : Char :=
  if 'A' ≤ c ∧ c ≤ 'Z' then Char.ofNat (c.toNat + 32) else c

/-- Lowercase a string (as a list of characters). -/
def lowerL (s : String) : List Char := s.data.map lowerChar

/-- `listSub n h` is true iff `n` occurs as a contiguous substring of `h`;
models the Python `in` operator on strings. -/
def listSub (n : List Char) : List Char → Bool
  | [] => n.isEmpty
  | c :: t => n.isPrefixOf (c :: t) || listSub n t

/-- Python whitespace characters recognised by `str.split()`. -/
def isPySpace (c : Char) : Bool :=
  c = ' ' || c = Char.ofNat 9 || c = Char.ofNat 10 || c = Char.ofNat 13 ||
  c = Char.ofNat 11 || c = Char.ofNat 12

/-- Split a character list on runs of whitespace, dropping empty pieces;
models Python `str.split()` with no argument.  `cur` is the word being
accumulated, in reverse. -/
def pyWordsGo (cur : List Char) : List Char → List (List Char)
  | [] => if cur.isEmpty then [] else [cur.reverse]
  | c :: t =>
    if isPySpace c then
      if cur.isEmpty then pyWordsGo [] t else cur.reverse :: pyWordsGo [] t
    else pyWordsGo (c :: cur) t

/-- The words of an answer, as counted by `len(answer.split())`. -/
def pyWords (s : String) : List (List Char) := pyWordsGo [] s.data

/-- Python `repr` of a list of strings, e.g. `['a', 'b']`, as interpolated
by the f-strings in the keyword/negation notes.  (The model does not
escape quotes inside the strings.) -/
def pyReprList (ss : List String) : String :=
  "[" ++ String.intercalate ", " (ss.map (fun s => sq ++ s ++ sq)) ++ "]"

/-- Render a rational with two decimal places, modelling Python's
`f"{x:.2f}"` (rounding half away from zero where Python rounds the
nearest double; the difference never matters to the engine's decisions). -/
def fmt2 (r : Rat) : String :=
  let sign : String := if r < 0 then "-" else ""
  let n : Nat := (|r| * 100 + 1/2).floor.toNat
  let frac : Nat := n % 100
  let fracStr : String := if frac < 10 then "0" ++ toString frac else toString frac
  sign ++ toString (n / 100) ++ "." ++ fracStr

/-! ### A model of the Python `re` calls

`run_evaluation_point` calls `re.search(pattern, answer, re.DOTALL)` and
`re.findall(pattern, answer)`.  The model below implements the subset of
Python regex syntax the engine's rubrics exercise: literal characters,
escapes (`\d`, and backslash before a non-alphanumeric character for a
literal), character classes `[...]` with ranges, `.`, and the greedy
quantifiers `*`, `+`, `?`.  Outside this subset the model reports a
pattern error; crucially it agrees with Python that a malformed pattern
such as `"["` raises (`re.error: unterminated character set`), which is
the behaviour the error-handling claims are about. -/

/-- One regex atom item. -/
inductive RItem where
  | lit (c : Char)
  | dot
  | digit
  | cls (neg : Bool) (ranges : List (Char × Char))
deriving DecidableEq

/-- A quantifier attached to an atom. -/
inductive RQuant where
  | one
  | star
  | plus
  | opt
deriving DecidableEq

/-- A quantified atom; a pattern is a list of these. -/
structure RAtom where
  itm : RItem
  q : RQuant
deriving DecidableEq

/-- Parse the body of a character class after `[` (and after the optional
`^` and leading `]` have been handled), accumulating ranges.  An
exhausted input is an unterminated class, as in Python. -/
def parseClassBody (fuel : Nat) (cs : List Char) (acc : List (Char × Char)) :
    Except String (List (Char × Char) × List Char) :=
  match fuel, cs with
  | 0, _ => .error "regex model: class fuel exhausted"
  | _, [] => .error "unterminated character set"
  | f + 1, c :: rest =>
    if c = ']' then .ok (acc, rest)
    else if c = Char.ofNat 92 then
      match rest with
      | [] => .error "bad escape"
      | e :: rest2 =>
        if e = 'd' then parseClassBody f rest2 (acc ++ [('0', '9')])
        else parseClassBody f rest2 (acc ++ [(e, e)])
    else
      match rest with
      | '-' :: c2 :: rest2 =>
        if c2 = ']' then parseClassBody f ('-' :: c2 :: rest2) (acc ++ [(c, c)])
        else parseClassBody f rest2 (acc ++ [(c, c2)])
      | _ => parseClassBody f rest (acc ++ [(c, c)])

/-- Parse a character class starting right after the `[`, handling the
optional leading `^` and the Python rule that a `]` in first position is
a literal. -/
def parseCls (cs : List Char) : Except String (RItem × List Char) := do
  let (neg, cs1) := match cs with
    | '^' :: t => (true, t)
    | _ => (false, cs)
  let (acc0, cs2) := match cs1 with
    | ']' :: t => ([(']', ']')], t)
    | _ => ([], cs1)
  let (ranges, rest) ← parseClassBody (cs2.length + 1) cs2 acc0
  .ok (RItem.cls neg ranges, rest)

/-- Attach a quantifier to a parsed item if the next character is one. -/
def quantChk (it : RItem) (cs : List Char) : RAtom × List Char :=
  match cs with
  | '*' :: t => (⟨it, RQuant.star⟩, t)
  | '+' :: t => (⟨it, RQuant.plus⟩, t)
  | '?' :: t => (⟨it, RQuant.opt⟩, t)
  | _ => (⟨it, RQuant.one⟩, cs)

/-- Parse a whole pattern into a list of quantified atoms.  Constructs
outside the modelled subset (groups, alternation, anchors) are reported
as pattern errors. -/
def parseAtoms (fuel : Nat) (cs : List Char) : Except String (List RAtom) :=
  match fuel, cs with
  | 0, _ => .error "regex model: fuel exhausted"
  | _, [] => .ok []
  | f + 1, c :: rest =>
    if c = '*' || c = '+' || c = '?' then .error "nothing to repeat"
    else if c = '(' || c = ')' || c = '|' || c = '^' || c = '$' then
      .error "regex construct outside modelled subset"
    else if c = Char.ofNat 92 then
      match rest with
      | [] => .error "bad escape (end of pattern)"
      | e :: rest2 =>
        if e = 'd' then
          let (a, rest3) := quantChk RItem.digit rest2
          (parseAtoms f rest3).map (fun as => a :: as)
        else if e.isAlpha || e.isDigit then .error "bad escape"
        else
          let (a, rest3) := quantChk (RItem.lit e) rest2
          (parseAtoms f rest3).map (fun as => a :: as)
    else if c = '[' then
      match parseCls rest with
      | .error m => .error m
      | .ok (it, rest2) =>
        let (a, rest3) := quantChk it rest2
        (parseAtoms f rest3).map (fun as => a :: as)
    else if c = '.' then
      let (a, rest2) := quantChk RItem.dot rest
      (parseAtoms f rest2).map (fun as => a :: as)
    else
      let (a, rest2) := quantChk (RItem.lit c) rest
      (parseAtoms f rest2).map (fun as => a :: as)

/-- Does one regex item match one character?  `da` is the DOTALL flag. -/
def itemMatch (da : Bool) : RItem → Char → Bool
  | RItem.lit c, x => x = c
  | RItem.dot, x => da || x ≠ Char.ofNat 10
  | RItem.digit, x => x.isDigit
  | RItem.cls neg rs, x =>
    let inside := rs.any (fun r => r.1 ≤ x && x ≤ r.2)
    if neg then !inside else inside

/-- Greedy backtracking matcher: the length of text consumed by matching
the atom list at the start of `cs`, preferring the longest repetition
first, as Python's engine does.  The fuel bounds the backtracking search
and is chosen generously by the callers. -/
def matchSeq (da : Bool) : Nat → List RAtom → List Char → Option Nat
  | 0, _, _ => none
  | _ + 1, [], _ => some 0
  | f + 1, ⟨it, RQuant.one⟩ :: rest, cs =>
    match cs with
    | [] => none
    | c :: cs2 => if itemMatch da it c then (matchSeq da f rest cs2).map (· + 1) else none
  | f + 1, ⟨it, RQuant.opt⟩ :: rest, cs =>
    (match cs with
     | c :: cs2 => if itemMatch da it c then (matchSeq da f rest cs2).map (· + 1) else none
     | [] => none) <|> matchSeq da f rest cs
  | f + 1, ⟨it, RQuant.star⟩ :: rest, cs =>
    (match cs with
     | c :: cs2 =>
       if itemMatch da it c then
         (matchSeq da f (⟨it, RQuant.star⟩ :: rest) cs2).map (· + 1)
       else none
     | [] => none) <|> matchSeq da f rest cs
  | f + 1, ⟨it, RQuant.plus⟩ :: rest, cs =>
    match cs with
    | c :: cs2 =>
      if itemMatch da it c then
        (matchSeq da f (⟨it, RQuant.star⟩ :: rest) cs2).map (· + 1)
      else none
    | [] => none

/-- Fuel used for one `matchSeq` call on text `cs` and pattern `pat`. -/
def matchFuel (pat : List RAtom) (cs : List Char) : Nat :=
  (pat.length + 2) * (cs.length + 2) * 4 + 8

/-- Leftmost search: try each start position in order and return the
first `(start, length)` that matches, as `re.search` does. -/
def searchFrom (da : Bool) (pat : List RAtom) : Nat → List Char → Nat → Option (Nat × Nat)
  | 0, _, _ => none
  | f + 1, cs, pos =>
    match matchSeq da (matchFuel pat cs) pat cs with
    | some n => some (pos, n)
    | none =>
      match cs with
      | [] => none
      | _ :: t => searchFrom da pat f t (pos + 1)

/-- Errors the engine can raise, modelling the Python exceptions that
escape `run_evaluation_point` / `evaluate_answer`. -/
inductive PyErr where
  | reErr (msg : String)
  | zeroDiv
deriving DecidableEq

/-- Model of `re.search(pattern, answer, re.DOTALL)` (with `da = true`):
either a pattern error, or the first matched substring if any. -/
def reSearch (pattern answer : String) (da : Bool) : Except PyErr (Option String) :=
  match parseAtoms (pattern.data.length + 1) pattern.data with
  | .error m => .error (PyErr.reErr m)
  | .ok pat =>
    match searchFrom da pat (answer.data.length + 1) answer.data 0 with
    | some (i, n) => .ok (some (String.mk ((answer.data.drop i).take n)))
    | none => .ok none

/-- Scan for the successive non-overlapping leftmost matches, advancing
one position past an empty match, as `re.findall` does. -/
def findallGo (da : Bool) (pat : List RAtom) : Nat → List Char → List String
  | 0, _ => []
  | f + 1, cs =>
    match searchFrom da pat (cs.length + 1) cs 0 with
    | none => []
    | some (i, n) =>
      let matched := String.mk ((cs.drop i).take n)
      if n > 0 then matched :: findallGo da pat f (cs.drop (i + n))
      else
        match cs.drop i with
        | [] => [matched]
        | _ :: t => matched :: findallGo da pat f t

/-- Model of `re.findall(pattern, answer)` (no DOTALL flag). -/
def reFindall (pattern answer : String) : Except PyErr (List String) :=
  match parseAtoms (pattern.data.length + 1) pattern.data with
  | .error m => .error (PyErr.reErr m)
  | .ok pat => .ok (findallGo false pat (answer.data.length + 2) answer.data)

/-! ### A model of `difflib.SequenceMatcher.ratio`

`SequenceMatcher(None, a, b).ratio()` is `2*M/(len a + len b)` where `M`
is the total size of the matching blocks found by recursively taking the
longest matching block (earliest in `a`, then earliest in `b`, among the
longest).  For the short inputs a rubric compares, no autojunk applies,
and the brute-force below computes the same blocks. -/

/-- Length of the common prefix of two character lists. -/
def cpl : List Char → List Char → Nat
  | a :: as, b :: bs => if a = b then cpl as bs + 1 else 0
  | _, _ => 0

/-- The longest matching block `(i, j, k)` of `a` and `b`: maximal `k`
with `a[i:i+k] = b[j:j+k]`, ties resolved to the smallest `i`, then the
smallest `j` — the tie-break documented for `find_longest_match`. -/
def bestMatch (a b : List Char) : Nat × Nat × Nat :=
  (List.range (a.length + 1)).foldl
    (fun best i =>
      (List.range (b.length + 1)).foldl
        (fun best j =>
          let k := cpl (a.drop i) (b.drop j)
          if k > best.2.2 then (i, j, k) else best)
        best)
    (0, 0, 0)

/-- Total size of all matching blocks (the `M` in the ratio). -/
def totalMatches : Nat → List Char → List Char → Nat
  | 0, _, _ => 0
  | f + 1, a, b =>
    let m := bestMatch a b
    if m.2.2 = 0 then 0
    else
      totalMatches f (a.take m.1) (b.take m.2.1) + m.2.2 +
        totalMatches f (a.drop (m.1 + m.2.2)) (b.drop (m.2.1 + m.2.2))

/-- Model of `SequenceMatcher(None, a, b).ratio()` as an exact rational. -/
def simFrac (a b : String) : Rat :=
  let la := a.data.length
  let lb := b.data.length
  if la + lb = 0 then 1
  else (2 * (totalMatches (la + lb + 1) a.data b.data) : Rat) / ((la + lb : Nat) : Rat)

/-! ### Data model

A rubric point is a Python dict; the structure below holds the fields the
engine reads, with `none` standing for an absent key.  The engine's
`dict.get` defaults are applied at the use sites, exactly where the code
applies them. -/

/-- Kind-specific parameters (`point["params"]`), holding every key any
validator reads.  `none` models an absent key. -/
structure Params where
  keywords : Option (List String) := none
  min_count : Option Int := none
  pattern : Option String := none
  min : Option Int := none
  max : Option Int := none
  golden_answer : Option String := none
  threshold : Option Rat := none
deriving DecidableEq

/-- One evaluation point (`point` dict) with the fields `evaluate_answer`
and `run_evaluation_point` read. -/
structure Point where
  id : Option String := none
  depends_on : Option String := none
  weight : Option Rat := none
  informational : Bool := false
  category : Option String := none
  text : Option String := none
  type : Option String := none
  params : Params := {}
deriving DecidableEq

/-- Python truthiness of an optional string: `None` and `""` are falsy.
Both `if depends_on:` and `if point_id:` use this test. -/
def truthy : Option String → Option String
  | some s => if s = "" then none else some s
  | none => none

/-- The dynamic value stored in an outcome's `evidence` slot: `None`, a
string, a list of strings, or an integer word count.  `vdiff g a` stands
for the joined `difflib.unified_diff` text of golden answer `g` against
answer `a` (the engine never inspects that text, only carries it). -/
inductive Ev where
  | vnone
  | vstr (s : String)
  | vlist (ss : List String)
  | vnat (n : Nat)
  | vdiff (golden ans : String)
deriving DecidableEq

/-- Render an optional type tag as Python's f-string does (`None` for an
absent key). -/
def pyStr : Option String → String
  | some s => s
  | none => "None"

/-- The body of the `try:` block of `run_evaluation_point`: dispatch on
`point.get("type")` and produce `(ok, note, evidence)` or raise.  This is
the source's `result` triple, before the duration is appended. -/
def runCore (answer : String) (point : Point) : Except PyErr (Bool × String × Ev) :=
  let p := point.params
  match point.type with
  | some "keyword" =>
    let keywords := p.keywords.getD []
    let mc := p.min_count.getD 1
    let found := keywords.filter (fun k => listSub (lowerL k) (lowerL answer))
    let ok : Bool := decide ((found.length : Int) ≥ mc)
    let note := "Found " ++ toString found.length ++ "/" ++ toString mc ++ " required keywords."
    let ev := if found.isEmpty then Ev.vnone else Ev.vstr ("Found: " ++ pyReprList found)
    .ok (ok, note, ev)
  | some "regex" =>
    match truthy p.pattern with
    | none => .ok (false, "Regex pattern is missing in params.", Ev.vnone)
    | some pat =>
      match reSearch pat answer true with
      | .error e => .error e
      | .ok m =>
        let ok := m.isSome
        let note := "Pattern " ++ sq ++ pat ++ sq ++ " " ++
          (if ok then "found" else "not found") ++ "."
        let ev := match m with
          | some s => Ev.vstr s
          | none => Ev.vnone
        .ok (ok, note, ev)
  | some "length" =>
    let words := (pyWords answer).length
    match p.min, p.max with
    | some mn, _ =>
      if (words : Int) < mn then
        .ok (false, "Answer is too short (" ++ toString words ++ " words, min " ++
          toString mn ++ ").", Ev.vnat words)
      else
        match p.max with
        | some mx =>
          if (words : Int) > mx then
            .ok (false, "Answer is too long (" ++ toString words ++ " words, max " ++
              toString mx ++ ").", Ev.vnat words)
          else .ok (true, "Length is OK (" ++ toString words ++ " words).", Ev.vnat words)
        | none => .ok (true, "Length is OK (" ++ toString words ++ " words).", Ev.vnat words)
    | none, some mx =>
      if (words : Int) > mx then
        .ok (false, "Answer is too long (" ++ toString words ++ " words, max " ++
          toString mx ++ ").", Ev.vnat words)
      else .ok (true, "Length is OK (" ++ toString words ++ " words).", Ev.vnat words)
    | none, none => .ok (true, "Length is OK (" ++ toString words ++ " words).", Ev.vnat words)
  | some "citation" =>
    let pat := p.pattern.getD "\\[\\d+\\]"
    let mc := p.min_count.getD 1
    match reFindall pat answer with
    | .error e => .error e
    | .ok found =>
      let ok : Bool := decide ((found.length : Int) ≥ mc)
      let note := "Found " ++ toString found.length ++ "/" ++ toString mc ++ " citations."
      let ev := if found.isEmpty then Ev.vnone else Ev.vlist found
      .ok (ok, note, ev)
  | some "negation" =>
    let forbidden := p.keywords.getD []
    let found := forbidden.filter (fun k => listSub (lowerL k) (lowerL answer))
    if found.isEmpty then .ok (true, "No forbidden keywords found.", Ev.vnone)
    else .ok (false, "Found forbidden keywords: " ++ pyReprList found, Ev.vlist found)
  | some "diff" =>
    match truthy p.golden_answer with
    | none => .ok (false, "Golden answer is missing in params.", Ev.vnone)
    | some golden =>
      let thr := p.threshold.getD ((9 : Rat) / 10)
      let r := simFrac answer golden
      let ok : Bool := decide (r ≥ thr)
      if ok then
        .ok (true, "Similarity ratio " ++ fmt2 r ++ " meets threshold " ++ fmt2 thr ++ ".",
          Ev.vstr ("Ratio: " ++ fmt2 r))
      else
        .ok (false, "Similarity ratio " ++ fmt2 r ++ " is below threshold " ++ fmt2 thr ++ ".",
          if golden = answer then Ev.vstr ("Ratio: " ++ fmt2 r) else Ev.vdiff golden answer)
  | some "embedding" => .ok (false, "Embedding validator not yet implemented.", Ev.vnone)
  | some "json_schema" => .ok (false, "JSON schema validator not yet implemented.", Ev.vnone)
  | some "code_test" => .ok (false, "Code test validator not yet implemented.", Ev.vnone)
  | t => .ok (false, "Unknown validator type: " ++ sq ++ pyStr t ++ sq, Ev.vnone)

/-- `run_evaluation_point`: the `try`-body result with the measured
duration appended (`return *result, duration_ms`).  The `try/finally`
has no `except` clause, so an error in the body propagates; `dur` is the
duration the surrounding `finally` would measure. -/
def run_evaluation_point (answer : String) (point : Point) (dur : Rat) :
    Except PyErr (Bool × String × Ev × Rat) :=
  (runCore answer point).map (fun r => (r.1, r.2.1, r.2.2, dur))

/-! ### The scoring fold (`evaluate_answer`) -/

/-- One row of the `details` list built by `evaluate_answer`. -/
structure Detail where
  point : String
  id : Option String
  category : String
  informational : Bool
  ok : Bool
  note : String
  evidence : Ev
  duration_ms : Rat
deriving DecidableEq

/-- Lookup in an insertion-ordered association list (a Python dict,
whose keys are unique). -/
def alGet : List (String × α) → String → Option α
  | [], _ => none
  | p :: t, k => if p.1 = k then some p.2 else alGet t k

/-- `d[k] = v` on a Python dict: update in place if the key exists,
otherwise append, preserving insertion order. -/
def alSet : List (String × α) → String → α → List (String × α)
  | [], k, v => [(k, v)]
  | p :: t, k, v => if p.1 = k then (k, v) :: t else p :: alSet t k v

/-- `d[k] = d.get(k, 0.0) + w`. -/
def alAdd (l : List (String × Rat)) (k : String) (w : Rat) : List (String × Rat) :=
  alSet l k ((alGet l k).getD 0 + w)

/-- The accumulators of the `evaluate_answer` loop.  `idx` counts the
points processed so far and indexes the duration oracle. -/
structure EvalState where
  total : Rat := 0
  passed : Rat := 0
  catTotals : List (String × Rat) := []
  catPassed : List (String × Rat) := []
  details : List Detail := []
  results : List (String × Bool) := []
  idx : Nat := 0
deriving DecidableEq

/-- The empty starting state of the loop. -/
def emptyState : EvalState := {}

/-- The skip note for a dependency never recorded. -/
def skipNotFoundNote (d : String) : String :=
  "Skipped: Dependency " ++ sq ++ d ++ sq ++ " not found or has not run yet."

/-- The skip note for a recorded-but-failed dependency. -/
def skipFailedNote (d : String) : String :=
  "Skipped: Dependency " ++ sq ++ d ++ sq ++ " failed."

/-- The dependency check at the top of the loop body: `some note` means
the point is skipped with that note, `none` means it runs. -/
def depStatus (st : EvalState) (point : Point) : Option String :=
  match truthy point.depends_on with
  | none => none
  | some d =>
    match alGet st.results d with
    | none => some (skipNotFoundNote d)
    | some false => some (skipFailedNote d)
    | some true => none

/-- The bookkeeping after one point's outcome `(ok, note, ev, dur)` is
known: accumulate weights unless informational, record `ok` under a
truthy id, append the detail row, advance the duration index. -/
def record (st : EvalState) (point : Point) (ok : Bool) (note : String) (ev : Ev)
    (dur : Rat) : EvalState :=
  let weight := point.weight.getD 1
  let category := point.category.getD "General"
  let st1 :=
    if point.informational then st
    else
      { st with
        total := st.total + weight
        catTotals := alAdd st.catTotals category weight
        passed := if ok then st.passed + weight else st.passed
        catPassed := if ok then alAdd st.catPassed category weight else st.catPassed }
  let st2 :=
    match truthy point.id with
    | some i => { st1 with results := alSet st1.results i ok }
    | none => st1
  { st2 with
    details := st2.details ++
      [⟨point.text.getD "N/A", point.id, category, point.informational, ok, note, ev, dur⟩]
    idx := st2.idx + 1 }

/-- One iteration of the `evaluate_answer` loop on one point. -/
def stepPoint (durs : Nat → Rat) (answer : String) (st : EvalState) (point : Point) :
    Except PyErr EvalState :=
  match depStatus st point with
  | some note => .ok (record st point false note Ev.vnone 0)
  | none =>
    match run_evaluation_point answer point (durs st.idx) with
    | .error e => .error e
    | .ok (ok, note, ev, dur) => .ok (record st point ok note ev dur)

/-- The whole loop over the rubric, threading the state. -/
def evalPoints (durs : Nat → Rat) (answer : String) (st : EvalState) :
    List Point → Except PyErr EvalState
  | [] => .ok st
  | point :: rest =>
    match stepPoint durs answer st point with
    | .error e => .error e
    | .ok st2 => evalPoints durs answer st2 rest

/-- The final score: `passed_weight / total_weight if total_weight > 0
else 1.0`. -/
def finalScore (st : EvalState) : Rat :=
  if st.total > 0 then st.passed / st.total else 1

/-- The `category_scores` dict comprehension.  Python raises
`ZeroDivisionError` as soon as an item's total is `0.0`. -/
def catDiv (catPassed : List (String × Rat)) :
    List (String × Rat) → Except PyErr (List (String × Rat))
  | [] => .ok []
  | (c, tot) :: rest =>
    if tot = 0 then .error PyErr.zeroDiv
    else
      match catDiv catPassed rest with
      | .error e => .error e
      | .ok r => .ok ((c, (alGet catPassed c).getD 0 / tot) :: r)

/-- `evaluate_answer(answer, evaluation_points)`: the score, the category
scores and the details, or the Python exception that escapes. -/
def evaluate_answer (durs : Nat → Rat) (answer : String) (pts : List Point) :
    Except PyErr (Rat × List (String × Rat) × List Detail) :=
  match pts with
  | [] => .ok (1, [], [])
  | _ :: _ =>
    match evalPoints durs answer emptyState pts with
    | .error e => .error e
    | .ok st =>
      match catDiv st.catPassed st.catTotals with
      | .error e => .error e
      | .ok cs => .ok (finalScore st, cs, st.details)

/-! ### The comparator (`compare_answers`) -/

/-- One report per answer, in order: the list comprehension
`[evaluate_answer(ans, points) for ans, points in zip(...)]`, with the
`i`-th answer's duration oracle `durs i`. -/
def evalAll (durs : Nat → Nat → Rat) (i : Nat) :
    List (String × List Point) → Except PyErr (List (Rat × List (String × Rat) × List Detail))
  | [] => .ok []
  | (a, ps) :: rest =>
    match evaluate_answer (durs i) a ps with
    | .error e => .error e
    | .ok r =>
      match evalAll durs (i + 1) rest with
      | .error e => .error e
      | .ok rs => .ok (r :: rs)

/-- `max(scores_only)` on a non-empty list (0 is returned for `[]`, which
the code never reaches). -/
def maxList : List Rat → Rat
  | [] => 0
  | h :: t => t.foldl (fun a x => if a < x then x else a) h

/-- `compare_answers(answers, evaluation_points_list)`: the winner index
(`-1` sentinel for empty input) and all reports. -/
def compare_answers (durs : Nat → Nat → Rat) (answers : List String)
    (ptss : List (List Point)) :
    Except PyErr (Int × List (Rat × List (String × Rat) × List Detail)) :=
  if answers.isEmpty then .ok (-1, [])
  else
    match evalAll durs 0 (answers.zip ptss) with
    | .error e => .error e
    | .ok all =>
      if all.isEmpty then .ok (-1, [])
      else
        let scores := all.map (fun r => r.1)
        let m := maxList scores
        let w := scores.findIdx (fun x => x = m)
        .ok ((w : Int), all)

/-! ### Definitions used to state the claims -/

/-- A Python word character (`\w`): alphanumeric or underscore.  Used by
the spec-side word-boundary matcher. -/
def isWordChar (c : Char) : Bool := c.isAlphanum || c = '_'

/-- Spec-side definition, following the spec's words "case-insensitive
containment test for each keyword (word-boundary match)": the lowercased
keyword occurs in the lowercased answer with non-word characters (or the
text ends) on both sides.  This is what the claim asserts the code does;
it is compared against the code's actual substring test. -/
def specWordBoundaryOccurs (kw answer : String) : Bool :=
  let a := lowerL answer
  let k := lowerL kw
  (List.range (a.length + 1)).any (fun i =>
    k.isPrefixOf (a.drop i) &&
    (decide (i = 0) || !isWordChar (a.getD (i - 1) ' ')) &&
    (decide (a.length ≤ i + k.length) || !isWordChar (a.getD (i + k.length) ' ')))

/-- Number of keywords matching at word boundaries, per the spec's words. -/
def specWordBoundaryCount (answer : String) (kws : List String) : Nat :=
  (kws.filter (fun k => specWordBoundaryOccurs k answer)).length

/-- The containment test the code actually performs: lowercased keyword
occurs anywhere as a substring of the lowercased answer. -/
def specSubstrHit (kw answer : String) : Bool := listSub (lowerL kw) (lowerL answer)

/-- Sum of the weights of the non-informational points of a rubric (with
the engine's default weight `1.0`); the loop's `total_weight` value. -/
def totalWeight (pts : List Point) : Rat :=
  ((pts.filter (fun p => p.informational = false)).map (fun p => p.weight.getD 1)).sum

/-- The `ok` of the most recently evaluated point bearing truthy id `i`,
read off the details list. -/
def lastOkFor (i : String) (ds : List Detail) : Option Bool :=
  ((ds.filter (fun d => truthy d.id = some i)).getLast?).map (fun d => d.ok)

/-- The deterministic validator kinds named by the spec. -/
def deterministicKinds : List (Option String) :=
  [some "keyword", some "regex", some "length", some "citation", some "negation", some "diff"]

/-- A detail row with the measured duration erased: everything two runs
with different clocks must agree on. -/
def dCore (d : Detail) : String × Option String × String × Bool × Bool × String × Ev :=
  (d.point, d.id, d.category, d.informational, d.ok, d.note, d.evidence)

/-- Two loop states agree on everything that can influence later steps
and the final score, except possibly the recorded result under the one
id `i` (and the details/duration bookkeeping). -/
def obsEq (i : Option String) (s1 s2 : EvalState) : Prop :=
  s1.total = s2.total ∧ s1.passed = s2.passed ∧ s1.catTotals = s2.catTotals ∧
  s1.catPassed = s2.catPassed ∧
  ∀ k : String, some k ≠ i → alGet s1.results k = alGet s2.results k

/-- Concrete fixture: a keyword point looking for `"hello"`, used to
instantiate universally quantified theorems at a concrete rubric. -/
def kwHello : Point := { type := some "keyword", params := { keywords := some ["hello"] } }

/-- Concrete fixture: a keyword point looking for `"x"` (fails on answers
that lack it), used to instantiate theorems at a concrete rubric. -/
def kwX : Point := { type := some "keyword", params := { keywords := some ["x"] } }

/-- Concrete fixture: a failing keyword point recording its result under
id `"a"`. -/
def ptA1 : Point :=
  { id := some "a", type := some "keyword", params := { keywords := some ["zz"] } }

/-- Concrete fixture: an always-passing length point also bearing id
`"a"` (a duplicate id). -/
def ptA2 : Point := { id := some "a", type := some "length" }

/-- Concrete fixture: a point depending on id `"a"`. -/
def ptDepA : Point := { depends_on := some "a", type := some "length" }

/-- Concrete fixture: a point with id `"b"` depending on id `"a"`. -/
def ptB : Point := { id := some "b", depends_on := some "a", type := some "length" }

/-- The validator kinds `run_evaluation_point` dispatches on explicitly;
every other `type` value falls through to the unknown-type branch. -/
def handledKinds : List (Option String) :=
  [some "keyword", some "regex", some "length", some "citation", some "negation",
   some "diff", some "embedding", some "json_schema", some "code_test"]

/-- Concrete fixture: the `kwX` keyword point marked informational. -/
def kwXinfo : Point := { kwX with informational := true }

/-- Concrete fixture: the details produced by evaluating the rubric
`[kwXinfo, kwHello]` against the answer `"hello"` with a zero clock. -/
def c7ds : List Detail :=
  [⟨"N/A", none, "General", true, false, "Found 0/1 required keywords.", Ev.vnone, 0⟩,
   ⟨"N/A", none, "General", false, true, "Found 1/1 required keywords.",
     Ev.vstr ("Found: [" ++ sq ++ "hello" ++ sq ++ "]"), 0⟩]

/-- Concrete fixture: the two reports `compare_answers` produces for the
answers `["bye", "hello"]` against the rubric `[kwHello]` repeated. -/
def c6reps : List (Rat × List (String × Rat) × List Detail) :=
  [(0, [("General", 0)],
    [⟨"N/A", none, "General", false, false, "Found 0/1 required keywords.", Ev.vnone, 0⟩]),
   (1, [("General", 1)],
    [⟨"N/A", none, "General", false, true, "Found 1/1 required keywords.",
      Ev.vstr ("Found: [" ++ sq ++ "hello" ++ sq ++ "]"), 0⟩])]

/-- Decidable equality of `Except` values, used to evaluate the engine at
concrete inputs inside proofs. -/
instance {ε α : Type} [DecidableEq ε] [DecidableEq α] : DecidableEq (Except ε α) := fun x y =>
  match x, y with
  | .error a, .error b =>
    if h : a = b then isTrue (by rw [h]) else isFalse (fun he => by cases he; exact h rfl)
  | .ok a, .ok b =>
    if h : a = b then isTrue (by rw [h]) else isFalse (fun he => by cases he; exact h rfl)
  | .error _, .ok _ => isFalse (fun he => by cases he)
  | .ok _, .error _ => isFalse (fun he => by cases he)

/-! ## Helper lemmas -/

section Lemmas

attribute [local semireducible] Rat.add Rat.mul Rat.inv Rat.sub

theorem alGet_alSet (l : List (String × α)) (k k' : String) (v : α) :
    alGet (alSet l k v) k' = if k' = k then some v else alGet l k' := by
  induction l with
  | nil =>
    by_cases h : k' = k
    · subst h; simp [alSet, alGet]
    · simp [alSet, alGet, h, Ne.symm h]
  | cons p t ih =>
    by_cases h1 : p.1 = k
    · by_cases h : k' = k
      · subst h; simp [alSet, alGet, h1]
      · simp [alSet, alGet, h1, h, Ne.symm h]
    · by_cases h2 : p.1 = k'
      · simp [alSet, alGet, h1, h2, show ¬(k' = k) from fun hh => h1 (h2.trans hh)]
      · simp [alSet, alGet, h1, h2, ih]

theorem record_total (st : EvalState) (P : Point) (ok : Bool) (n : String) (e : Ev) (d : Rat) :
    (record st P ok n e d).total =
      if P.informational then st.total else st.total + P.weight.getD 1 := by
  unfold record
  cases hP : P.informational <;> cases hI : truthy P.id <;> simp [hP, hI]

theorem record_passed (st : EvalState) (P : Point) (ok : Bool) (n : String) (e : Ev) (d : Rat) :
    (record st P ok n e d).passed =
      if P.informational then st.passed
      else if ok then st.passed + P.weight.getD 1 else st.passed := by
  unfold record
  cases hP : P.informational <;> cases hI : truthy P.id <;> simp [hP, hI]

theorem record_catTotals (st : EvalState) (P : Point) (ok : Bool) (n : String) (e : Ev) (d : Rat) :
    (record st P ok n e d).catTotals =
      if P.informational then st.catTotals
      else alAdd st.catTotals (P.category.getD "General") (P.weight.getD 1) := by
  unfold record
  cases hP : P.informational <;> cases hI : truthy P.id <;> simp [hP, hI]

theorem record_catPassed (st : EvalState) (P : Point) (ok : Bool) (n : String) (e : Ev) (d : Rat) :
    (record st P ok n e d).catPassed =
      if P.informational then st.catPassed
      else if ok then alAdd st.catPassed (P.category.getD "General") (P.weight.getD 1)
      else st.catPassed := by
  unfold record
  cases hP : P.informational <;> cases hI : truthy P.id <;> simp [hP, hI]

theorem record_results (st : EvalState) (P : Point) (ok : Bool) (n : String) (e : Ev) (d : Rat) :
    (record st P ok n e d).results =
      match truthy P.id with
      | some i => alSet st.results i ok
      | none => st.results := by
  unfold record
  cases hP : P.informational <;> cases hI : truthy P.id <;> simp [hP, hI]

theorem record_details (st : EvalState) (P : Point) (ok : Bool) (n : String) (e : Ev) (d : Rat) :
    (record st P ok n e d).details =
      st.details ++
        [⟨P.text.getD "N/A", P.id, P.category.getD "General", P.informational, ok, n, e, d⟩] := by
  unfold record
  cases hP : P.informational <;> cases hI : truthy P.id <;> simp [hP, hI]

theorem record_idx (st : EvalState) (P : Point) (ok : Bool) (n : String) (e : Ev) (d : Rat) :
    (record st P ok n e d).idx = st.idx + 1 := by
  unfold record
  cases hP : P.informational <;> cases hI : truthy P.id <;> simp [hP, hI]

theorem stepPoint_skip (durs : Nat → Rat) (a : String) (st : EvalState) (P : Point)
    (n : String) (h : depStatus st P = some n) :
    stepPoint durs a st P = .ok (record st P false n Ev.vnone 0) := by
  simp [stepPoint, h]

theorem stepPoint_run (durs : Nat → Rat) (a : String) (st : EvalState) (P : Point)
    (h : depStatus st P = none) :
    stepPoint durs a st P =
      match run_evaluation_point a P (durs st.idx) with
      | .error e => .error e
      | .ok (ok, n, ev, d) => .ok (record st P ok n ev d) := by
  simp [stepPoint, h]

theorem stepPoint_ok_record (durs : Nat → Rat) (a : String) (st st' : EvalState) (P : Point)
    (h : stepPoint durs a st P = .ok st') :
    ∃ ok n ev d, st' = record st P ok n ev d := by
  unfold stepPoint at h
  cases hd : depStatus st P with
  | some n =>
    rw [hd] at h
    exact ⟨false, n, Ev.vnone, 0, (Except.ok.injEq _ _ ▸ h).symm⟩
  | none =>
    rw [hd] at h
    cases hr : run_evaluation_point a P (durs st.idx) with
    | error e => rw [hr] at h; cases h
    | ok r =>
      rw [hr] at h
      exact ⟨r.1, r.2.1, r.2.2.1, r.2.2.2, by
        cases h
        rfl⟩

theorem evalPoints_nil (durs : Nat → Rat) (a : String) (st : EvalState) :
    evalPoints durs a st [] = .ok st := rfl

theorem evalPoints_cons (durs : Nat → Rat) (a : String) (st : EvalState) (P : Point)
    (pts : List Point) :
    evalPoints durs a st (P :: pts) =
      match stepPoint durs a st P with
      | .error e => .error e
      | .ok st2 => evalPoints durs a st2 pts := rfl

theorem evalPoints_append (durs : Nat → Rat) (a : String) (xs ys : List Point) :
    ∀ st : EvalState,
      evalPoints durs a st (xs ++ ys) =
        match evalPoints durs a st xs with
        | .error e => .error e
        | .ok st2 => evalPoints durs a st2 ys := by
  induction xs with
  | nil => intro st; rfl
  | cons P t ih =>
    intro st
    show evalPoints durs a st (P :: (t ++ ys)) = _
    rw [evalPoints_cons, evalPoints_cons]
    cases stepPoint durs a st P with
    | error e => rfl
    | ok st2 => exact ih st2

/-! ## Claim C1 -/

/-- Claim C1 as stated is false: `run_evaluation_point` has no handler
for parameter-shape errors (its `try` has only a `finally`), so the
malformed regex pattern `"["` raises and aborts `evaluate_answer`
instead of yielding an `ok=false` outcome. -/
theorem c1_counterexample :
    evaluate_answer (fun _ => 0) "hello"
        [{ type := some "regex", params := { pattern := some "[" } }] =
      .error (PyErr.reErr "unterminated character set") := by
  decide

theorem eval_single_error (durs : Nat → Rat) (answer : String) (P : Point) (e : PyErr)
    (h1 : truthy P.depends_on = none)
    (h2 : run_evaluation_point answer P (durs 0) = .error e) :
    evaluate_answer durs answer [P] = .error e := by
  have hd : depStatus emptyState P = none := by
    simp [depStatus, h1]
  have hstep : stepPoint durs answer emptyState P = .error e := by
    rw [stepPoint_run durs answer emptyState P hd]
    have hidx : (emptyState).idx = 0 := rfl
    rw [hidx, h2]
  have h3 : evalPoints durs answer emptyState [P] = .error e := by
    rw [evalPoints_cons, hstep]
  simp only [evaluate_answer]
  rw [h3]

set_option maxHeartbeats 1600000 in
/-- Claim C1 amended: `run_evaluation_point` converts missing required
parameters (an absent or empty regex pattern, an absent or empty golden
answer) and unknown validator kinds into returned `ok=false` outcomes
with a descriptive note, but it does not catch validator exceptions —
whenever the point's evaluation raises, the error propagates and both
`evaluate_answer` and `compare_answers` abort without returning a
report. -/
theorem c1_amended_param_errors :
    (∀ (answer : String) (P : Point) (dur : Rat), P.type = some "regex" →
       truthy P.params.pattern = none →
       run_evaluation_point answer P dur =
         .ok (false, "Regex pattern is missing in params.", Ev.vnone, dur))
    ∧ (∀ (answer : String) (P : Point) (dur : Rat), P.type = some "diff" →
       truthy P.params.golden_answer = none →
       run_evaluation_point answer P dur =
         .ok (false, "Golden answer is missing in params.", Ev.vnone, dur))
    ∧ (∀ (answer : String) (P : Point) (dur : Rat), P.type ∉ handledKinds →
       run_evaluation_point answer P dur =
         .ok (false, "Unknown validator type: " ++ sq ++ pyStr P.type ++ sq, Ev.vnone, dur))
    ∧ (∀ (durs : Nat → Rat) (answer : String) (P : Point) (e : PyErr),
        truthy P.depends_on = none →
        run_evaluation_point answer P (durs 0) = .error e →
        evaluate_answer durs answer [P] = .error e)
    ∧ (∀ (durs : Nat → Nat → Rat) (answer : String) (P : Point)
        (answers : List String) (ptss : List (List Point)) (e : PyErr),
        truthy P.depends_on = none →
        run_evaluation_point answer P (durs 0 0) = .error e →
        compare_answers durs (answer :: answers) ([P] :: ptss) = .error e) := by
  refine ⟨?_, ?_, ?_, ?_, ?_⟩
  · intro answer P dur h1 h2
    obtain ⟨pid, pdep, pw, pinf, pcat, ptext, pty, pparams⟩ := P
    have h1a : pty = some "regex" := h1
    subst h1a
    obtain ⟨pkw, pmc, ppat, pmin, pmax, pgold, pthr⟩ := pparams
    have h2a : truthy ppat = none := h2
    cases ppat with
    | none => rfl
    | some s =>
      have hs : s = "" := by
        by_contra hne
        simp [truthy, hne] at h2a
      subst hs
      rfl
  · intro answer P dur h1 h2
    obtain ⟨pid, pdep, pw, pinf, pcat, ptext, pty, pparams⟩ := P
    have h1a : pty = some "diff" := h1
    subst h1a
    obtain ⟨pkw, pmc, ppat, pmin, pmax, pgold, pthr⟩ := pparams
    have h2a : truthy pgold = none := h2
    cases pgold with
    | none => rfl
    | some s =>
      have hs : s = "" := by
        by_contra hne
        simp [truthy, hne] at h2a
      subst hs
      rfl
  · intro answer P dur hnot
    obtain ⟨pid, pdep, pw, pinf, pcat, ptext, pty, pparams⟩ := P
    have hnot2 : pty ∉ handledKinds := hnot
    simp only [handledKinds, List.mem_cons, List.not_mem_nil, or_false, not_or] at hnot2
    obtain ⟨h1, h2, h3, h4, h5, h6, h7, h8, h9⟩ := hnot2
    have hrc : runCore answer ⟨pid, pdep, pw, pinf, pcat, ptext, pty, pparams⟩ =
        .ok (false, "Unknown validator type: " ++ sq ++ pyStr pty ++ sq, Ev.vnone) := by
      unfold runCore
      split <;> simp_all
    show (runCore answer ⟨pid, pdep, pw, pinf, pcat, ptext, pty, pparams⟩).map
        (fun r => (r.1, r.2.1, r.2.2, dur)) = _
    rw [hrc]
    rfl
  · intro durs answer P e h1 h2
    exact eval_single_error durs answer P e h1 h2
  · intro durs answer P answers ptss e h1 h2
    have hev : evaluate_answer (durs 0) answer [P] = .error e :=
      eval_single_error (durs 0) answer P e h1 h2
    have hall : evalAll durs 0 ((answer, [P]) :: answers.zip ptss) = .error e := by
      unfold evalAll
      rw [hev]
    unfold compare_answers
    simp only [List.isEmpty_cons, Bool.false_eq_true, if_false]
    rw [List.zip_cons_cons, hall]

/-- Witness for the amended C1 at concrete inputs: a missing regex
pattern, a missing golden answer and an unknown kind are each handled as
a failing outcome, while an invalid regex pattern aborts both
`evaluate_answer` and `compare_answers`. -/
theorem c1_amended_witness :
    run_evaluation_point "x" { type := some "regex", params := {} } 0 =
        .ok (false, "Regex pattern is missing in params.", Ev.vnone, 0)
      ∧ run_evaluation_point "x" { type := some "diff", params := {} } 0 =
        .ok (false, "Golden answer is missing in params.", Ev.vnone, 0)
      ∧ run_evaluation_point "x" { type := some "mystery" } 0 =
        .ok (false, "Unknown validator type: " ++ sq ++ pyStr (some "mystery") ++ sq,
          Ev.vnone, 0)
      ∧ evaluate_answer (fun _ => 0) "x"
          [{ type := some "regex", params := { pattern := some "[" } }] =
        .error (PyErr.reErr "unterminated character set")
      ∧ compare_answers (fun _ _ => 0) ("x" :: [])
          ([{ type := some "regex", params := { pattern := some "[" } }] :: []) =
        .error (PyErr.reErr "unterminated character set") :=
  ⟨c1_amended_param_errors.1 "x" { type := some "regex", params := {} } 0 rfl rfl,
   c1_amended_param_errors.2.1 "x" { type := some "diff", params := {} } 0 rfl rfl,
   c1_amended_param_errors.2.2.1 "x" { type := some "mystery" } 0 (by decide),
   c1_amended_param_errors.2.2.2.1 (fun _ => 0) "x"
     { type := some "regex", params := { pattern := some "[" } }
     (PyErr.reErr "unterminated character set") rfl (by decide),
   c1_amended_param_errors.2.2.2.2 (fun _ _ => 0) "x"
     { type := some "regex", params := { pattern := some "[" } } [] []
     (PyErr.reErr "unterminated character set") rfl (by decide)⟩

/-! ## Claim C2 -/

/-- Claim C2 is right about the intended behaviour but the code breaks
it: on a rubric whose only point has `weight = 0`, the category-scores
dict comprehension divides the category's passed weight by its zero
total and `evaluate_answer` raises `ZeroDivisionError` instead of
omitting the category. -/
theorem c2_zero_weight_category_crash :
    evaluate_answer (fun _ => 0) "x"
        [{ type := some "keyword", params := {}, weight := some 0, category := some "A" }] =
      .error PyErr.zeroDiv := by
  decide

/-! ## Claim C3 -/

/-- Claim C3 as stated is false: the keyword validator is a plain
case-insensitive substring test, not a word-boundary test.  The keyword
`"cat"` has no word-boundary occurrence in `"concatenate"`, yet the code
counts it as found and passes the point. -/
theorem c3_counterexample :
    run_evaluation_point "concatenate"
        { type := some "keyword", params := { keywords := some ["cat"], min_count := some 1 } } 0 =
      .ok (true, "Found 1/1 required keywords.",
        Ev.vstr ("Found: [" ++ sq ++ "cat" ++ sq ++ "]"), 0)
    ∧ specWordBoundaryCount "concatenate" ["cat"] = 0 := by
  constructor
  · decide
  · decide

/-- Claim C3 amended: a keyword point passes iff at least `minCount`
keywords occur case-insensitively as arbitrary substrings of the answer,
with the matched keywords reported in the evidence; a negation point uses
the same substring matching and passes iff none occurs. -/
theorem c3_amended_substring_matching :
    ∀ (answer : String) (kws : List String) (mc : Int) (dur : Rat),
      (run_evaluation_point answer
          { type := some "keyword", params := { keywords := some kws, min_count := some mc } }
          dur =
        .ok (decide (((kws.filter (fun k => specSubstrHit k answer)).length : Int) ≥ mc),
          "Found " ++ toString (kws.filter (fun k => specSubstrHit k answer)).length ++ "/" ++
            toString mc ++ " required keywords.",
          (if (kws.filter (fun k => specSubstrHit k answer)).isEmpty then Ev.vnone
           else Ev.vstr ("Found: " ++ pyReprList (kws.filter (fun k => specSubstrHit k answer)))),
          dur))
      ∧ (run_evaluation_point answer
          { type := some "negation", params := { keywords := some kws } } dur =
        if (kws.filter (fun k => specSubstrHit k answer)).isEmpty then
          .ok (true, "No forbidden keywords found.", Ev.vnone, dur)
        else
          .ok (false,
            "Found forbidden keywords: " ++
              pyReprList (kws.filter (fun k => specSubstrHit k answer)),
            Ev.vlist (kws.filter (fun k => specSubstrHit k answer)), dur)) := by
  intro answer kws mc dur
  constructor
  · rfl
  · have key : run_evaluation_point answer
        { type := some "negation", params := { keywords := some kws } } dur =
        Except.map (fun r => (r.1, r.2.1, r.2.2, dur))
          (if (kws.filter (fun k => specSubstrHit k answer)).isEmpty then
            Except.ok (true, "No forbidden keywords found.", Ev.vnone)
          else
            Except.ok (false,
              "Found forbidden keywords: " ++
                pyReprList (kws.filter (fun k => specSubstrHit k answer)),
              Ev.vlist (kws.filter (fun k => specSubstrHit k answer)))) := rfl
    rw [key]
    cases hb : (kws.filter (fun k => specSubstrHit k answer)).isEmpty <;> simp [hb] <;> rfl

/-! ## Claim C4 -/

/-- Claim C4 as stated is false on the truthiness edge: a point whose
`dependsOn` is the empty string is treated as having no dependency (the
code tests `if depends_on:`), so its validator runs normally — here with
`ok=true` and a nonzero duration — even though no earlier point ever
recorded the id `""`. -/
theorem c4_counterexample :
    evaluate_answer (fun _ => 5) "hello world"
        [{ depends_on := some "", type := some "length" }] =
      .ok (1, [("General", 1)],
        [⟨"N/A", none, "General", false, true, "Length is OK (2 words).", Ev.vnat 2, 5⟩]) := by
  decide

/-- Claim C4 amended to non-empty dependency ids: a point whose
`dependsOn` is a non-empty id runs normally only when the recorded
result for that id is `ok=true`; otherwise the validator is not invoked
and the point's row is recorded with `ok=false`, `durationMs=0` and a
note mentioning the skip, regardless of the point's own kind and params. -/
theorem c4_amended_dependency_gating :
    ∀ (durs : Nat → Rat) (answer : String) (pts1 : List Point) (P : Point) (d : String)
      (st : EvalState),
      evalPoints durs answer emptyState pts1 = .ok st →
      P.depends_on = some d → d ≠ "" →
      ((alGet st.results d ≠ some true →
         ∃ n, (n = skipNotFoundNote d ∨ n = skipFailedNote d) ∧
           evalPoints durs answer emptyState (pts1 ++ [P]) =
             .ok (record st P false n Ev.vnone 0))
       ∧ (alGet st.results d = some true →
          evalPoints durs answer emptyState (pts1 ++ [P]) =
            match run_evaluation_point answer P (durs st.idx) with
            | .error e => .error e
            | .ok (ok, n, ev, dur) => .ok (record st P ok n ev dur))) := by
  intro durs answer pts1 P d st h1 hdep hne
  have hsingle : evalPoints durs answer st [P] = stepPoint durs answer st P := by
    rw [evalPoints_cons]
    cases stepPoint durs answer st P with
    | error e => rfl
    | ok st2 => rfl
  have happ : evalPoints durs answer emptyState (pts1 ++ [P]) = stepPoint durs answer st P := by
    rw [evalPoints_append, h1]
    exact hsingle
  have htr : truthy P.depends_on = some d := by
    simp [truthy, hdep, hne]
  constructor
  · intro hnot
    cases hres : alGet st.results d with
    | none =>
      refine ⟨skipNotFoundNote d, Or.inl rfl, ?_⟩
      have hd : depStatus st P = some (skipNotFoundNote d) := by
        simp [depStatus, htr, hres]
      rw [happ, stepPoint_skip durs answer st P _ hd]
    | some b =>
      cases b with
      | false =>
        refine ⟨skipFailedNote d, Or.inr rfl, ?_⟩
        have hd : depStatus st P = some (skipFailedNote d) := by
          simp [depStatus, htr, hres]
        rw [happ, stepPoint_skip durs answer st P _ hd]
      | true => exact absurd hres hnot
  · intro hyes
    have hd : depStatus st P = none := by
      simp [depStatus, htr, hyes]
    rw [happ, stepPoint_run durs answer st P hd]

/-- Witness for the amended C4: after a failing point with id `"a"`, a
point depending on `"a"` is skipped with the failure note. -/
theorem c4_amended_witness :
    ∃ n, (n = skipNotFoundNote "a" ∨ n = skipFailedNote "a") ∧
      evalPoints (fun _ => 0) "hello" emptyState
          ([{ id := some "a", type := some "keyword", params := { keywords := some ["zz"] } }] ++
            [{ depends_on := some "a", type := some "length" }]) =
        .ok (record
          ⟨1, 0, [("General", 1)], [],
            [⟨"N/A", some "a", "General", false, false, "Found 0/1 required keywords.",
              Ev.vnone, 0⟩],
            [("a", false)], 1⟩
          { depends_on := some "a", type := some "length" } false n Ev.vnone 0) :=
  (c4_amended_dependency_gating (fun _ => 0) "hello"
    [{ id := some "a", type := some "keyword", params := { keywords := some ["zz"] } }]
    { depends_on := some "a", type := some "length" } "a"
    ⟨1, 0, [("General", 1)], [],
      [⟨"N/A", some "a", "General", false, false, "Found 0/1 required keywords.", Ev.vnone, 0⟩],
      [("a", false)], 1⟩
    (by decide) rfl (by decide)).1 (by decide)

/-! ## Claim C5 -/

theorem totalWeight_nil : totalWeight [] = 0 := rfl

theorem totalWeight_cons (P : Point) (pts : List Point) :
    totalWeight (P :: pts) =
      (if P.informational then 0 else P.weight.getD 1) + totalWeight pts := by
  cases h : P.informational <;> simp [totalWeight, List.filter_cons, h]

theorem stepPoint_weights (durs : Nat → Rat) (a : String) (st : EvalState) (P : Point)
    (st' : EvalState) (hw : 0 ≤ P.weight.getD 1)
    (h : stepPoint durs a st P = .ok st') :
    st'.total = st.total + (if P.informational then 0 else P.weight.getD 1) ∧
    st.passed ≤ st'.passed ∧
    st'.passed + st.total ≤ st'.total + st.passed := by
  obtain ⟨ok, n, ev, d, hrec⟩ := stepPoint_ok_record durs a st st' P h
  subst hrec
  rw [record_total, record_passed]
  refine ⟨?_, ?_, ?_⟩
  · cases hi : P.informational <;> simp [hi]
  · cases hi : P.informational <;> cases ok <;> simp [hi] <;> try linarith
  · cases hi : P.informational <;> cases ok <;> simp [hi] <;> try linarith

theorem evalPoints_weights (durs : Nat → Rat) (a : String) :
    ∀ (pts : List Point) (st0 st : EvalState),
      (∀ p ∈ pts, 0 ≤ p.weight.getD 1) →
      evalPoints durs a st0 pts = .ok st →
      st.total = st0.total + totalWeight pts ∧ st0.passed ≤ st.passed ∧
      st.passed + st0.total ≤ st.total + st0.passed := by
  intro pts
  induction pts with
  | nil =>
    intro st0 st _ h
    rw [evalPoints_nil] at h
    cases h
    refine ⟨by rw [totalWeight_nil]; ring, le_refl _, by linarith⟩
  | cons P rest ih =>
    intro st0 st hw h
    rw [evalPoints_cons] at h
    cases hs : stepPoint durs a st0 P with
    | error e => rw [hs] at h; cases h
    | ok st1 =>
      rw [hs] at h
      have hstep := stepPoint_weights durs a st0 P st1 (hw P (List.mem_cons_self P rest)) hs
      have hrest := ih st1 st (fun p hp => hw p (List.mem_cons_of_mem P hp)) h
      obtain ⟨e1, e2, e3⟩ := hstep
      obtain ⟨f1, f2, f3⟩ := hrest
      rw [totalWeight_cons]
      refine ⟨by rw [f1, e1]; ring, le_trans e2 f2, by linarith⟩

theorem totalWeight_informational (pts : List Point)
    (h : ∀ p ∈ pts, p.informational = true) : totalWeight pts = 0 := by
  induction pts with
  | nil => rfl
  | cons P rest ih =>
    rw [totalWeight_cons, h P (List.mem_cons_self P rest),
      ih (fun p hp => h p (List.mem_cons_of_mem P hp))]
    simp

theorem evaluate_answer_ok_inv (durs : Nat → Rat) (a : String) (pts : List Point)
    (s : Rat) (cs : List (String × Rat)) (ds : List Detail) (hne : pts ≠ [])
    (h : evaluate_answer durs a pts = .ok (s, cs, ds)) :
    ∃ st, evalPoints durs a emptyState pts = .ok st ∧
      catDiv st.catPassed st.catTotals = .ok cs ∧ s = finalScore st ∧ ds = st.details := by
  cases pts with
  | nil => exact absurd rfl hne
  | cons q rest =>
    simp only [evaluate_answer] at h
    cases hev : evalPoints durs a emptyState (q :: rest) with
    | error e => rw [hev] at h; cases h
    | ok st =>
      rw [hev] at h
      have h2 : (match catDiv st.catPassed st.catTotals with
          | Except.error e => Except.error e
          | Except.ok cs2 => Except.ok (finalScore st, cs2, st.details)) =
          Except.ok (s, cs, ds) := h
      cases hc : catDiv st.catPassed st.catTotals with
      | error e => rw [hc] at h2; cases h2
      | ok cs2 =>
        rw [hc] at h2
        simp only [Except.ok.injEq, Prod.mk.injEq] at h2
        obtain ⟨hs, hcs, hds⟩ := h2
        exact ⟨st, rfl, by rw [hcs] at hc; exact hc, hs.symm, hds.symm⟩

theorem evaluate_answer_ok_build (durs : Nat → Rat) (a : String) (pts : List Point)
    (st : EvalState) (cs : List (String × Rat)) (hne : pts ≠ [])
    (hev : evalPoints durs a emptyState pts = .ok st)
    (hc : catDiv st.catPassed st.catTotals = .ok cs) :
    evaluate_answer durs a pts = .ok (finalScore st, cs, st.details) := by
  cases pts with
  | nil => exact absurd rfl hne
  | cons q rest =>
    simp only [evaluate_answer]
    rw [hev]
    have h2 : (match catDiv st.catPassed st.catTotals with
        | Except.error e => Except.error e
        | Except.ok cs2 => Except.ok (finalScore st, cs2, st.details)) =
        Except.ok (finalScore st, cs, st.details) := by rw [hc]
    exact h2

/-- Claim C5: whenever `evaluate_answer` does return on a rubric whose
weights are all non-negative, the score lies in `[0, 1]`; it is
`passedWeight / totalWeight` when the total non-informational weight is
positive, and exactly `1` for an empty or fully-informational rubric
(total weight zero). -/
theorem c5_score_bounds :
    ∀ (durs : Nat → Rat) (answer : String) (pts : List Point) (s : Rat)
      (cs : List (String × Rat)) (ds : List Detail),
      (∀ p ∈ pts, 0 ≤ p.weight.getD 1) →
      evaluate_answer durs answer pts = .ok (s, cs, ds) →
      0 ≤ s ∧ s ≤ 1 ∧
      (pts = [] → s = 1) ∧
      (totalWeight pts = 0 → s = 1) ∧
      ((∀ p ∈ pts, p.informational = true) → s = 1) ∧
      (0 < totalWeight pts →
        ∃ st : EvalState, evalPoints durs answer emptyState pts = .ok st ∧
          st.total = totalWeight pts ∧ 0 ≤ st.passed ∧ st.passed ≤ st.total ∧
          s = st.passed / st.total) := by
  intro durs answer pts s cs ds hw h
  cases hpts : pts with
  | nil =>
    subst hpts
    simp only [evaluate_answer, Except.ok.injEq, Prod.mk.injEq] at h
    obtain ⟨hs, _, _⟩ := h
    subst hs
    refine ⟨by norm_num, by norm_num, fun _ => rfl, fun _ => rfl, fun _ => rfl, ?_⟩
    intro hpos
    rw [totalWeight_nil] at hpos
    exact absurd hpos (by norm_num)
  | cons q rest =>
    subst hpts
    obtain ⟨st, hev, hc, hs, hds⟩ :=
      evaluate_answer_ok_inv durs answer (q :: rest) s cs ds (by simp) h
    obtain ⟨w1, w2, w3⟩ := evalPoints_weights durs answer (q :: rest) emptyState st hw hev
    have hz : (emptyState).total = 0 := rfl
    have hz2 : (emptyState).passed = 0 := rfl
    rw [hz] at w1 w3
    rw [hz2] at w2 w3
    have hp0 : 0 ≤ st.passed := w2
    have hpt : st.passed ≤ st.total := by linarith
    have htw : st.total = totalWeight (q :: rest) := by rw [w1]; ring
    have hscore : s = if st.total > 0 then st.passed / st.total else 1 := hs
    refine ⟨?_, ?_, ?_, ?_, ?_, ?_⟩
    · rw [hscore]
      by_cases hpos : st.total > 0
      · rw [if_pos hpos]; exact div_nonneg hp0 (le_of_lt hpos)
      · rw [if_neg hpos]; norm_num
    · rw [hscore]
      by_cases hpos : st.total > 0
      · rw [if_pos hpos]; exact (div_le_one hpos).mpr hpt
      · rw [if_neg hpos]
    · intro hcon; cases hcon
    · intro h0
      rw [hscore, htw, h0]
      norm_num
    · intro hinf
      rw [hscore, htw, totalWeight_informational _ hinf]
      norm_num
    · intro hpos
      rw [← htw] at hpos
      exact ⟨st, hev, htw, hp0, hpt, by rw [hscore, if_pos hpos]⟩

/-- Witness for C5 at a one-point rubric with the default weight. -/
theorem c5_witness :
    (∀ p ∈ [kwHello], 0 ≤ p.weight.getD 1) ∧
    (0 ≤ (1 : Rat) ∧ (1 : Rat) ≤ 1 ∧
      ([kwHello] = [] → (1 : Rat) = 1) ∧
      (totalWeight [kwHello] = 0 → (1 : Rat) = 1) ∧
      ((∀ p ∈ [kwHello], p.informational = true) → (1 : Rat) = 1) ∧
      (0 < totalWeight [kwHello] →
        ∃ st : EvalState,
          evalPoints (fun _ => 0) "hello" emptyState [kwHello] = .ok st ∧
          st.total = totalWeight [kwHello] ∧
          0 ≤ st.passed ∧ st.passed ≤ st.total ∧
          (1 : Rat) = st.passed / st.total)) :=
  ⟨by decide,
   c5_score_bounds (fun _ => 0) "hello" [kwHello] 1
     [("General", 1)]
     [⟨"N/A", none, "General", false, true, "Found 1/1 required keywords.",
       Ev.vstr ("Found: [" ++ sq ++ "hello" ++ sq ++ "]"), 0⟩]
     (by decide) (by decide)⟩

/-! ## Observational equivalence machinery (for C7 and C8) -/

theorem obsEq_refl (i : Option String) (s : EvalState) : obsEq i s s :=
  ⟨rfl, rfl, rfl, rfl, fun _ _ => rfl⟩

theorem record_obsEq (i : Option String) (s1 s2 : EvalState) (P : Point) (ok : Bool)
    (n : String) (ev : Ev) (d1 d2 : Rat) (h : obsEq i s1 s2) :
    obsEq i (record s1 P ok n ev d1) (record s2 P ok n ev d2) := by
  obtain ⟨h1, h2, h3, h4, h5⟩ := h
  refine ⟨?_, ?_, ?_, ?_, ?_⟩
  · rw [record_total, record_total, h1]
  · rw [record_passed, record_passed, h2]
  · rw [record_catTotals, record_catTotals, h3]
  · rw [record_catPassed, record_catPassed, h4]
  · intro k hk
    rw [record_results, record_results]
    cases ht : truthy P.id with
    | none => exact h5 k hk
    | some j =>
      rw [alGet_alSet, alGet_alSet]
      by_cases hkj : k = j
      · simp [hkj]
      · simp only [if_neg hkj]
        exact h5 k hk

theorem depStatus_obsEq (i : Option String) (s1 s2 : EvalState) (P : Point)
    (h : obsEq i s1 s2)
    (hdep : ∀ d, truthy P.depends_on = some d → some d ≠ i) :
    depStatus s1 P = depStatus s2 P := by
  unfold depStatus
  cases ht : truthy P.depends_on with
  | none => rfl
  | some d =>
    show (match alGet s1.results d with
      | none => some (skipNotFoundNote d)
      | some false => some (skipFailedNote d)
      | some true => none) =
      (match alGet s2.results d with
      | none => some (skipNotFoundNote d)
      | some false => some (skipFailedNote d)
      | some true => none)
    rw [h.2.2.2.2 d (hdep d ht)]

theorem stepPoint_obsEq (i : Option String) (durs1 durs2 : Nat → Rat) (a : String)
    (P : Point) (s1 s2 : EvalState) (hrel : obsEq i s1 s2)
    (hdep : ∀ d, truthy P.depends_on = some d → some d ≠ i) :
    (∃ e, stepPoint durs1 a s1 P = .error e ∧ stepPoint durs2 a s2 P = .error e) ∨
    (∃ u1 u2, stepPoint durs1 a s1 P = .ok u1 ∧ stepPoint durs2 a s2 P = .ok u2 ∧
      obsEq i u1 u2 ∧
      ∃ dt1 dt2, u1.details = s1.details ++ [dt1] ∧ u2.details = s2.details ++ [dt2] ∧
        dCore dt1 = dCore dt2) := by
  have hds := depStatus_obsEq i s1 s2 P hrel hdep
  cases hd : depStatus s1 P with
  | some n =>
    right
    refine ⟨record s1 P false n Ev.vnone 0, record s2 P false n Ev.vnone 0,
      stepPoint_skip durs1 a s1 P n hd,
      stepPoint_skip durs2 a s2 P n (by rw [← hds]; exact hd),
      record_obsEq i s1 s2 P false n Ev.vnone 0 0 hrel, ?_⟩
    refine ⟨_, _, record_details s1 P false n Ev.vnone 0,
      record_details s2 P false n Ev.vnone 0, rfl⟩
  | none =>
    rw [stepPoint_run durs1 a s1 P hd, stepPoint_run durs2 a s2 P (by rw [← hds]; exact hd)]
    cases hc : runCore a P with
    | error e =>
      left
      have key : ∀ dur : Rat, run_evaluation_point a P dur = .error e := fun dur => by
        rw [show run_evaluation_point a P dur =
          (runCore a P).map (fun r => (r.1, r.2.1, r.2.2, dur)) from rfl, hc]
        rfl
      refine ⟨e, ?_, ?_⟩
      · rw [key (durs1 s1.idx)]
      · rw [key (durs2 s2.idx)]
    | ok r =>
      right
      have key : ∀ dur : Rat,
          run_evaluation_point a P dur = .ok (r.1, r.2.1, r.2.2, dur) := fun dur => by
        rw [show run_evaluation_point a P dur =
          (runCore a P).map (fun s => (s.1, s.2.1, s.2.2, dur)) from rfl, hc]
        rfl
      refine ⟨record s1 P r.1 r.2.1 r.2.2 (durs1 s1.idx),
        record s2 P r.1 r.2.1 r.2.2 (durs2 s2.idx), ?_, ?_,
        record_obsEq i s1 s2 P r.1 r.2.1 r.2.2 _ _ hrel, ?_⟩
      · rw [key (durs1 s1.idx)]
      · rw [key (durs2 s2.idx)]
      · refine ⟨_, _, record_details s1 P r.1 r.2.1 r.2.2 _,
          record_details s2 P r.1 r.2.1 r.2.2 _, rfl⟩

theorem evalPoints_obsEq (i : Option String) (durs1 durs2 : Nat → Rat) (a : String) :
    ∀ (pts : List Point) (s1 s2 : EvalState), obsEq i s1 s2 →
      (∀ q ∈ pts, ∀ d, truthy q.depends_on = some d → some d ≠ i) →
      (∃ e, evalPoints durs1 a s1 pts = .error e ∧ evalPoints durs2 a s2 pts = .error e) ∨
      (∃ u1 u2, evalPoints durs1 a s1 pts = .ok u1 ∧ evalPoints durs2 a s2 pts = .ok u2 ∧
        obsEq i u1 u2) := by
  intro pts
  induction pts with
  | nil =>
    intro s1 s2 hrel _
    right
    exact ⟨s1, s2, rfl, rfl, hrel⟩
  | cons P rest ih =>
    intro s1 s2 hrel hdep
    rcases stepPoint_obsEq i durs1 durs2 a P s1 s2 hrel
        (hdep P (List.mem_cons_self P rest)) with
      ⟨e, he1, he2⟩ | ⟨u1, u2, hu1, hu2, hrel2, _⟩
    · left
      refine ⟨e, ?_, ?_⟩ <;> rw [evalPoints_cons]
      · rw [he1]
      · rw [he2]
    · have := ih u1 u2 hrel2 (fun q hq => hdep q (List.mem_cons_of_mem P hq))
      rcases this with ⟨e, he1, he2⟩ | ⟨v1, v2, hv1, hv2, hrel3⟩
      · left
        refine ⟨e, ?_, ?_⟩ <;> rw [evalPoints_cons]
        · rw [hu1]; exact he1
        · rw [hu2]; exact he2
      · right
        refine ⟨v1, v2, ?_, ?_, hrel3⟩ <;> rw [evalPoints_cons]
        · rw [hu1]; exact hv1
        · rw [hu2]; exact hv2

theorem evalPoints_obsEqD (durs1 durs2 : Nat → Rat) (a : String) :
    ∀ (pts : List Point) (s1 s2 : EvalState), obsEq none s1 s2 →
      s1.details.map dCore = s2.details.map dCore →
      (∃ e, evalPoints durs1 a s1 pts = .error e ∧ evalPoints durs2 a s2 pts = .error e) ∨
      (∃ u1 u2, evalPoints durs1 a s1 pts = .ok u1 ∧ evalPoints durs2 a s2 pts = .ok u2 ∧
        obsEq none u1 u2 ∧ u1.details.map dCore = u2.details.map dCore) := by
  intro pts
  induction pts with
  | nil =>
    intro s1 s2 hrel hdet
    right
    exact ⟨s1, s2, rfl, rfl, hrel, hdet⟩
  | cons P rest ih =>
    intro s1 s2 hrel hdet
    rcases stepPoint_obsEq none durs1 durs2 a P s1 s2 hrel (fun d _ => by simp) with
      ⟨e, he1, he2⟩ | ⟨u1, u2, hu1, hu2, hrel2, dt1, dt2, hd1, hd2, hdc⟩
    · left
      refine ⟨e, ?_, ?_⟩ <;> rw [evalPoints_cons]
      · rw [he1]
      · rw [he2]
    · have hdet2 : u1.details.map dCore = u2.details.map dCore := by
        rw [hd1, hd2, List.map_append, List.map_append, hdet]
        simp [hdc]
      have := ih u1 u2 hrel2 hdet2
      rcases this with ⟨e, he1, he2⟩ | ⟨v1, v2, hv1, hv2, hrel3, hdet3⟩
      · left
        refine ⟨e, ?_, ?_⟩ <;> rw [evalPoints_cons]
        · rw [hu1]; exact he1
        · rw [hu2]; exact he2
      · right
        refine ⟨v1, v2, ?_, ?_, hrel3, hdet3⟩ <;> rw [evalPoints_cons]
        · rw [hu1]; exact hv1
        · rw [hu2]; exact hv2

theorem map_ok_of_map_dCore (l1 : List Detail) :
    ∀ l2 : List Detail, l1.map dCore = l2.map dCore →
      l1.map Detail.ok = l2.map Detail.ok := by
  induction l1 with
  | nil =>
    intro l2 h
    cases l2 with
    | nil => rfl
    | cons d t => simp at h
  | cons d t ih =>
    intro l2 h
    cases l2 with
    | nil => simp at h
    | cons d2 t2 =>
      simp only [List.map_cons, List.cons.injEq] at h
      obtain ⟨hd, ht⟩ := h
      have hok : d.ok = d2.ok := by
        have := congrArg (fun x : String × Option String × String × Bool × Bool × String × Ev =>
          x.2.2.2.2.1) hd
        exact this
      simp only [List.map_cons, hok, ih t2 ht]

/-! ## Claim C8 -/

/-- Claim C8: with the wall clock modelled as an oracle (the only
nondeterministic input of the engine), two runs of `evaluate_answer` on
the same answer and rubric — here restricted, as the claim is, to the
deterministic validator kinds — produce the same score, the same
category scores and the same per-point `ok` values. -/
theorem c8_determinism :
    ∀ (durs1 durs2 : Nat → Rat) (answer : String) (pts : List Point)
      (s1 s2 : Rat) (cs1 cs2 : List (String × Rat)) (ds1 ds2 : List Detail),
      (∀ p ∈ pts, p.type ∈ deterministicKinds) →
      evaluate_answer durs1 answer pts = .ok (s1, cs1, ds1) →
      evaluate_answer durs2 answer pts = .ok (s2, cs2, ds2) →
      s1 = s2 ∧ cs1 = cs2 ∧ ds1.map Detail.ok = ds2.map Detail.ok := by
  intro durs1 durs2 answer pts s1 s2 cs1 cs2 ds1 ds2 hkinds h1 h2
  cases hpts : pts with
  | nil =>
    subst hpts
    simp only [evaluate_answer, Except.ok.injEq, Prod.mk.injEq] at h1 h2
    obtain ⟨rfl, rfl, rfl⟩ := h1
    obtain ⟨rfl, rfl, rfl⟩ := h2
    exact ⟨rfl, rfl, rfl⟩
  | cons q rest =>
    subst hpts
    obtain ⟨stA, hevA, hcA, hsA, hdsA⟩ :=
      evaluate_answer_ok_inv durs1 answer _ s1 cs1 ds1 (by simp) h1
    obtain ⟨stB, hevB, hcB, hsB, hdsB⟩ :=
      evaluate_answer_ok_inv durs2 answer _ s2 cs2 ds2 (by simp) h2
    rcases evalPoints_obsEqD durs1 durs2 answer (q :: rest) emptyState emptyState
        (obsEq_refl none emptyState) rfl with
      ⟨e, he1, _⟩ | ⟨u1, u2, hu1, hu2, hrel, hdet⟩
    · rw [hevA] at he1; cases he1
    · rw [hevA] at hu1
      injection hu1 with hh1
      subst hh1
      rw [hevB] at hu2
      injection hu2 with hh2
      subst hh2
      refine ⟨?_, ?_, ?_⟩
      · rw [hsA, hsB]
        unfold finalScore
        rw [hrel.1, hrel.2.1]
      · rw [← hrel.2.2.1, ← hrel.2.2.2.1] at hcB
        rw [hcA] at hcB
        injection hcB
      · rw [hdsA, hdsB]
        exact map_ok_of_map_dCore _ _ hdet

/-- Witness for C8: the same one-point rubric run under two different
clocks yields the same score, category scores and `ok` values (the
recorded durations differ). -/
theorem c8_witness :
    (1 : Rat) = 1 ∧ [("General", (1 : Rat))] = [("General", (1 : Rat))] ∧
      List.map Detail.ok
          [⟨"N/A", none, "General", false, true, "Found 1/1 required keywords.",
            Ev.vstr ("Found: [" ++ sq ++ "hello" ++ sq ++ "]"), 0⟩] =
        List.map Detail.ok
          [⟨"N/A", none, "General", false, true, "Found 1/1 required keywords.",
            Ev.vstr ("Found: [" ++ sq ++ "hello" ++ sq ++ "]"), 1⟩] :=
  c8_determinism (fun _ => 0) (fun _ => 1) "hello" [kwHello] 1 1
    [("General", 1)] [("General", 1)]
    [⟨"N/A", none, "General", false, true, "Found 1/1 required keywords.",
      Ev.vstr ("Found: [" ++ sq ++ "hello" ++ sq ++ "]"), 0⟩]
    [⟨"N/A", none, "General", false, true, "Found 1/1 required keywords.",
      Ev.vstr ("Found: [" ++ sq ++ "hello" ++ sq ++ "]"), 1⟩]
    (by decide) (by decide) (by decide)

/-! ## Claim C7 -/

/-- Claim C7 as stated is false: flipping a point's `informational` flag
to true removes its weight from every accumulator, so on the rubric with
one failing weight-1 keyword point the score changes from `0` to `1` and
`categoryScores` changes from `{General: 0}` to `{}`. -/
theorem c7_counterexample :
    evaluate_answer (fun _ => 0) "" [kwX] =
        .ok (0, [("General", 0)],
          [⟨"N/A", none, "General", false, false, "Found 0/1 required keywords.",
            Ev.vnone, 0⟩])
      ∧ evaluate_answer (fun _ => 0) "" [{ kwX with informational := true }] =
        .ok (1, [],
          [⟨"N/A", none, "General", true, false, "Found 0/1 required keywords.",
            Ev.vnone, 0⟩]) := by
  constructor
  · decide
  · decide

theorem evalPoints_details_len (durs : Nat → Rat) (a : String) :
    ∀ (pts : List Point) (s0 s : EvalState),
      evalPoints durs a s0 pts = .ok s →
      s.details.length = s0.details.length + pts.length := by
  intro pts
  induction pts with
  | nil =>
    intro s0 s h
    rw [evalPoints_nil] at h
    cases h
    simp
  | cons P rest ih =>
    intro s0 s h
    rw [evalPoints_cons] at h
    cases hs : stepPoint durs a s0 P with
    | error e => rw [hs] at h; cases h
    | ok s1 =>
      rw [hs] at h
      obtain ⟨ok, n, ev, d, hrec⟩ := stepPoint_ok_record durs a s0 s1 P hs
      have h1 : s1.details.length = s0.details.length + 1 := by
        rw [hrec, record_details, List.length_append]
        rfl
      have h2 := ih s1 s h
      rw [h2, h1, List.length_cons]
      omega

theorem evalPoints_details_prefix (durs : Nat → Rat) (a : String) :
    ∀ (pts : List Point) (s0 s : EvalState),
      evalPoints durs a s0 pts = .ok s →
      ∃ suf, s.details = s0.details ++ suf := by
  intro pts
  induction pts with
  | nil =>
    intro s0 s h
    rw [evalPoints_nil] at h
    cases h
    exact ⟨[], (List.append_nil _).symm⟩
  | cons P rest ih =>
    intro s0 s h
    rw [evalPoints_cons] at h
    cases hs : stepPoint durs a s0 P with
    | error e => rw [hs] at h; cases h
    | ok s1 =>
      rw [hs] at h
      obtain ⟨ok, n, ev, d, hrec⟩ := stepPoint_ok_record durs a s0 s1 P hs
      obtain ⟨suf, hsuf⟩ := ih s1 s h
      refine ⟨[⟨P.text.getD "N/A", P.id, P.category.getD "General", P.informational,
        ok, n, ev, d⟩] ++ suf, ?_⟩
      rw [hsuf, hrec, record_details, List.append_assoc]

/-- Claim C7 amended: an informational point never touches any
accumulator — removing it from the rubric (provided no later point
depends on its id) leaves `score` and every entry of `categoryScores`
unchanged, for any clock — while the point itself still appears in
`details` at its position with `informational=true`, carrying the
outcome its evaluation produced: the result of running its validator
when its dependency gate lets it run, or `ok=false` with the skip note
and zero duration when it was dependency-skipped. -/
theorem c7_amended_informational_inert :
    ∀ (durs durs2 : Nat → Rat) (answer : String) (pts1 pts2 : List Point) (P : Point)
      (s : Rat) (cs : List (String × Rat)) (ds : List Detail),
      P.informational = true →
      (∀ q ∈ pts2, ∀ d, truthy q.depends_on = some d → truthy P.id ≠ some d) →
      evaluate_answer durs answer (pts1 ++ P :: pts2) = .ok (s, cs, ds) →
      (∃ ds2, evaluate_answer durs2 answer (pts1 ++ pts2) = .ok (s, cs, ds2)) ∧
      ∃ stA dtP, evalPoints durs answer emptyState pts1 = .ok stA ∧
        ds.get? pts1.length = some dtP ∧
        dtP.informational = true ∧ dtP.id = P.id ∧ dtP.point = P.text.getD "N/A" ∧
        dtP.category = P.category.getD "General" ∧
        (depStatus stA P = none →
          run_evaluation_point answer P (durs stA.idx) =
            .ok (dtP.ok, dtP.note, dtP.evidence, dtP.duration_ms)) ∧
        (∀ nn, depStatus stA P = some nn →
          dtP.ok = false ∧ dtP.note = nn ∧ dtP.duration_ms = 0) := by
  intro durs durs2 answer pts1 pts2 P s cs ds hinf hid h
  obtain ⟨stL, hev, hcat, hs, hds⟩ :=
    evaluate_answer_ok_inv durs answer _ s cs ds (by simp) h
  rw [evalPoints_append] at hev
  cases hA : evalPoints durs answer emptyState pts1 with
  | error e => rw [hA] at hev; cases hev
  | ok stA =>
    rw [hA] at hev
    have hev2 : evalPoints durs answer stA (P :: pts2) = .ok stL := hev
    rw [evalPoints_cons] at hev2
    cases hstep : stepPoint durs answer stA P with
    | error e => rw [hstep] at hev2; cases hev2
    | ok stB =>
      rw [hstep] at hev2
      have hev3 : evalPoints durs answer stB pts2 = .ok stL := hev2
      obtain ⟨okP, nP, evP, dP, hrecP, hbr1, hbr2⟩ :
          ∃ ok n ev d, stB = record stA P ok n ev d ∧
            (depStatus stA P = none →
              run_evaluation_point answer P (durs stA.idx) = .ok (ok, n, ev, d)) ∧
            (∀ nn, depStatus stA P = some nn → ok = false ∧ n = nn ∧ d = 0) := by
        cases hd : depStatus stA P with
        | some nn =>
          have hstep2 := stepPoint_skip durs answer stA P nn hd
          rw [hstep] at hstep2
          injection hstep2 with hB
          exact ⟨false, nn, Ev.vnone, 0, hB,
            fun hnone => absurd hnone (by simp),
            fun nn2 hnn2 => ⟨rfl, Option.some.inj hnn2, rfl⟩⟩
        | none =>
          rw [stepPoint_run durs answer stA P hd] at hstep
          cases hr : run_evaluation_point answer P (durs stA.idx) with
          | error e2 => rw [hr] at hstep; cases hstep
          | ok r =>
            rw [hr] at hstep
            have hstep2 : Except.ok (record stA P r.1 r.2.1 r.2.2.1 r.2.2.2) =
                Except.ok stB := hstep
            injection hstep2 with hB
            exact ⟨r.1, r.2.1, r.2.2.1, r.2.2.2, hB.symm,
              fun _ => rfl,
              fun nn2 hnn2 => absurd hnn2 (by simp)⟩
      constructor
      · rcases evalPoints_obsEq none durs durs2 answer pts1 emptyState emptyState
            (obsEq_refl none emptyState) (fun q _ d _ => by simp) with
          ⟨e, he1, he2⟩ | ⟨u1, u2, hu1, hu2, hrelA⟩
        · rw [hA] at he1; cases he1
        · rw [hA] at hu1
          injection hu1 with hh1
          subst hh1
          have hrelB : obsEq (truthy P.id) stB u2 := by
            subst hrecP
            refine ⟨?_, ?_, ?_, ?_, ?_⟩
            · rw [record_total]; simp only [hinf, if_true]; exact hrelA.1
            · rw [record_passed]; simp only [hinf, if_true]; exact hrelA.2.1
            · rw [record_catTotals]; simp only [hinf, if_true]; exact hrelA.2.2.1
            · rw [record_catPassed]; simp only [hinf, if_true]; exact hrelA.2.2.2.1
            · intro k hk
              rw [record_results]
              cases ht : truthy P.id with
              | none => exact hrelA.2.2.2.2 k (by simp)
              | some j =>
                rw [alGet_alSet]
                have hkj : ¬(k = j) := by
                  intro hkj
                  rw [ht, hkj] at hk
                  exact hk rfl
                rw [if_neg hkj]
                exact hrelA.2.2.2.2 k (by simp)
          have hdep2 : ∀ q ∈ pts2, ∀ d,
              truthy q.depends_on = some d → some d ≠ truthy P.id :=
            fun q hq d hd hcon => hid q hq d hd hcon.symm
          rcases evalPoints_obsEq (truthy P.id) durs durs2 answer pts2 stB u2 hrelB hdep2 with
            ⟨e, he1, he2⟩ | ⟨v1, v2, hv1, hv2, hrelC⟩
          · rw [hev3] at he1; cases he1
          · rw [hev3] at hv1
            injection hv1 with hh2
            subst hh2
            have hcat2 : catDiv v2.catPassed v2.catTotals = .ok cs := by
              rw [← hrelC.2.2.1, ← hrelC.2.2.2.1]
              exact hcat
            have hfs : finalScore v2 = s := by
              rw [hs]
              unfold finalScore
              rw [hrelC.1, hrelC.2.1]
            have hevR : evalPoints durs2 answer emptyState (pts1 ++ pts2) = .ok v2 := by
              rw [evalPoints_append, hu2]
              exact hv2
            cases hpp : pts1 ++ pts2 with
            | nil =>
              refine ⟨[], ?_⟩
              rw [hpp] at hevR
              rw [evalPoints_nil] at hevR
              injection hevR with hh3
              subst hh3
              have hs1 : s = 1 := by rw [← hfs]; rfl
              have hcs : cs = [] := by
                have hcd : catDiv (emptyState).catPassed (emptyState).catTotals =
                    Except.ok ([] : List (String × Rat)) := rfl
                rw [hcd] at hcat2
                injection hcat2 with hh4
                exact hh4.symm
              rw [hs1, hcs]
              rfl
            | cons x xs =>
              refine ⟨v2.details, ?_⟩
              have hbuild := evaluate_answer_ok_build durs2 answer (pts1 ++ pts2) v2 cs
                (by rw [hpp]; simp) hevR hcat2
              rw [hfs, hpp] at hbuild
              exact hbuild
      · have hlenA : stA.details.length = pts1.length := by
          have hl := evalPoints_details_len durs answer pts1 emptyState stA hA
          rw [show (emptyState).details.length = 0 from rfl, Nat.zero_add] at hl
          exact hl
        have hBdet : stB.details = stA.details ++
            [⟨P.text.getD "N/A", P.id, P.category.getD "General", P.informational,
              okP, nP, evP, dP⟩] := by
          rw [hrecP, record_details]
        obtain ⟨suf, hsuf⟩ := evalPoints_details_prefix durs answer pts2 stB stL hev3
        refine ⟨stA, ⟨P.text.getD "N/A", P.id, P.category.getD "General", P.informational,
          okP, nP, evP, dP⟩, rfl, ?_, hinf, rfl, rfl, rfl, ?_, ?_⟩
        · rw [hds, hsuf, hBdet, List.append_assoc]
          rw [List.get?_append_right (le_of_eq hlenA)]
          rw [hlenA]
          simp
        · intro hnone
          exact hbr1 hnone
        · intro nn hnn
          obtain ⟨hok, hn, hdur⟩ := hbr2 nn hnn
          exact ⟨hok, hn, hdur⟩

/-- Witness for the amended C7: in the rubric `[kwXinfo, kwHello]` the
informational point is dropped without changing score or category
scores, and its detail row at position 0 carries its validator outcome. -/
theorem c7_amended_witness :
    (∃ ds2, evaluate_answer (fun _ => 1) "hello" ([] ++ [kwHello]) =
      .ok (1, [("General", 1)], ds2))
    ∧ ∃ stA dtP, evalPoints (fun _ => 0) "hello" emptyState [] = .ok stA ∧
        c7ds.get? 0 = some dtP ∧
        dtP.informational = true ∧ dtP.id = kwXinfo.id ∧
        dtP.point = kwXinfo.text.getD "N/A" ∧
        dtP.category = kwXinfo.category.getD "General" ∧
        (depStatus stA kwXinfo = none →
          run_evaluation_point "hello" kwXinfo 0 =
            .ok (dtP.ok, dtP.note, dtP.evidence, dtP.duration_ms)) ∧
        (∀ nn, depStatus stA kwXinfo = some nn →
          dtP.ok = false ∧ dtP.note = nn ∧ dtP.duration_ms = 0) :=
  c7_amended_informational_inert (fun _ => 0) (fun _ => 1) "hello" [] [kwHello] kwXinfo
    1 [("General", 1)] c7ds (by decide) (by decide) (by decide)

/-! ## Claims C9 and C10: recorded results and skip propagation -/

theorem truthy_ne_empty (o : Option String) (i : String) (h : truthy o = some i) : i ≠ "" := by
  cases o with
  | none => cases h
  | some s =>
    by_cases hs : s = ""
    · simp [truthy, hs] at h
    · simp [truthy, hs] at h
      subst h
      exact hs

theorem lastOkFor_append (i : String) (ds : List Detail) (dt : Detail) :
    lastOkFor i (ds ++ [dt]) =
      if truthy dt.id = some i then some dt.ok else lastOkFor i ds := by
  unfold lastOkFor
  rw [List.filter_append]
  by_cases h : truthy dt.id = some i
  · rw [if_pos h]
    have hf : List.filter (fun d => truthy d.id = some i) [dt] = [dt] := by
      simp [List.filter, h]
    rw [hf, List.getLast?_concat]
    rfl
  · rw [if_neg h]
    have hf : List.filter (fun d => truthy d.id = some i) [dt] = [] := by
      simp [List.filter, h]
    rw [hf, List.append_nil]

theorem record_lastOk (s0 : EvalState) (P : Point) (ok : Bool) (n : String) (ev : Ev)
    (d : Rat) (h : ∀ i, i ≠ "" → alGet s0.results i = lastOkFor i s0.details) :
    ∀ i, i ≠ "" → alGet (record s0 P ok n ev d).results i =
      lastOkFor i (record s0 P ok n ev d).details := by
  intro i hi
  rw [record_results, record_details, lastOkFor_append]
  cases ht : truthy P.id with
  | none =>
    simp only [ht]
    simp [h i hi]
  | some j =>
    simp only [ht]
    rw [alGet_alSet]
    by_cases hij : i = j
    · simp [hij]
    · have hji : ¬(j = i) := fun hh => hij hh.symm
      simp [hij, hji, h i hi]

theorem evalPoints_lastOk (durs : Nat → Rat) (a : String) :
    ∀ (pts : List Point) (s0 s : EvalState),
      (∀ i, i ≠ "" → alGet s0.results i = lastOkFor i s0.details) →
      evalPoints durs a s0 pts = .ok s →
      ∀ i, i ≠ "" → alGet s.results i = lastOkFor i s.details := by
  intro pts
  induction pts with
  | nil =>
    intro s0 s h0 hev
    rw [evalPoints_nil] at hev
    cases hev
    exact h0
  | cons P rest ih =>
    intro s0 s h0 hev
    rw [evalPoints_cons] at hev
    cases hs : stepPoint durs a s0 P with
    | error e => rw [hs] at hev; cases hev
    | ok s1 =>
      rw [hs] at hev
      obtain ⟨ok, n, ev, d, hrec⟩ := stepPoint_ok_record durs a s0 s1 P hs
      subst hrec
      exact ih _ s (record_lastOk s0 P ok n ev d h0) hev

/-- Claim C9: the loop's recorded result for every non-empty id is the
`ok` of the most recently evaluated point bearing that id (each later
point with the same id overwrites the record), and a subsequent point
whose `dependsOn` names the id resolves against exactly that latest
value: runs on `some true`, skips with the failure note on `some false`,
skips with the not-found note when no point bore the id. -/
theorem c9_last_write_wins :
    ∀ (durs : Nat → Rat) (answer : String) (pts : List Point) (st : EvalState),
      evalPoints durs answer emptyState pts = .ok st →
      (∀ i, i ≠ "" → alGet st.results i = lastOkFor i st.details) ∧
      (∀ (Q : Point) (d : String), Q.depends_on = some d → d ≠ "" →
        ((lastOkFor d st.details = some true →
           stepPoint durs answer st Q =
             match run_evaluation_point answer Q (durs st.idx) with
             | .error e => .error e
             | .ok (ok, n, ev, dur) => .ok (record st Q ok n ev dur)) ∧
         (lastOkFor d st.details = some false →
           stepPoint durs answer st Q =
             .ok (record st Q false (skipFailedNote d) Ev.vnone 0)) ∧
         (lastOkFor d st.details = none →
           stepPoint durs answer st Q =
             .ok (record st Q false (skipNotFoundNote d) Ev.vnone 0)))) := by
  intro durs answer pts st hev
  have hinv := evalPoints_lastOk durs answer pts emptyState st (fun i _ => rfl) hev
  refine ⟨hinv, ?_⟩
  intro Q d hdep hne
  have htr : truthy Q.depends_on = some d := by simp [truthy, hdep, hne]
  have hres : alGet st.results d = lastOkFor d st.details := hinv d hne
  refine ⟨?_, ?_, ?_⟩
  · intro hlast
    have hd : depStatus st Q = none := by
      simp [depStatus, htr, hres, hlast]
    exact stepPoint_run durs answer st Q hd
  · intro hlast
    have hd : depStatus st Q = some (skipFailedNote d) := by
      simp [depStatus, htr, hres, hlast]
    exact stepPoint_skip durs answer st Q _ hd
  · intro hlast
    have hd : depStatus st Q = some (skipNotFoundNote d) := by
      simp [depStatus, htr, hres, hlast]
    exact stepPoint_skip durs answer st Q _ hd

/-- Witness for C9: after a failing point with id `"a"` followed by a
passing point with the same id, a point depending on `"a"` resolves
against the later record (`ok=true`) and runs its validator. -/
theorem c9_witness :
    stepPoint (fun _ => 0) "hello"
        ⟨2, 1, [("General", 2)], [("General", 1)],
          [⟨"N/A", some "a", "General", false, false, "Found 0/1 required keywords.",
            Ev.vnone, 0⟩,
           ⟨"N/A", some "a", "General", false, true, "Length is OK (1 words).",
            Ev.vnat 1, 0⟩],
          [("a", true)], 2⟩ ptDepA =
      match run_evaluation_point "hello" ptDepA
          ((fun _ : Nat => (0 : Rat))
            (⟨2, 1, [("General", 2)], [("General", 1)],
              [⟨"N/A", some "a", "General", false, false, "Found 0/1 required keywords.",
                Ev.vnone, 0⟩,
               ⟨"N/A", some "a", "General", false, true, "Length is OK (1 words).",
                Ev.vnat 1, 0⟩],
              [("a", true)], 2⟩ : EvalState).idx) with
      | .error e => .error e
      | .ok (ok, n, ev, dur) =>
        .ok (record
          ⟨2, 1, [("General", 2)], [("General", 1)],
            [⟨"N/A", some "a", "General", false, false, "Found 0/1 required keywords.",
              Ev.vnone, 0⟩,
             ⟨"N/A", some "a", "General", false, true, "Length is OK (1 words).",
              Ev.vnat 1, 0⟩],
            [("a", true)], 2⟩ ptDepA ok n ev dur) :=
  ((c9_last_write_wins (fun _ => 0) "hello" [ptA1, ptA2]
      ⟨2, 1, [("General", 2)], [("General", 1)],
        [⟨"N/A", some "a", "General", false, false, "Found 0/1 required keywords.",
          Ev.vnone, 0⟩,
         ⟨"N/A", some "a", "General", false, true, "Length is OK (1 words).",
          Ev.vnat 1, 0⟩],
        [("a", true)], 2⟩ (by decide)).2 ptDepA "a" rfl (by decide)).1 (by decide)

theorem evalPoints_keepKey (durs : Nat → Rat) (a : String) (i : String) :
    ∀ (pts : List Point) (s0 s : EvalState),
      (∀ R ∈ pts, truthy R.id ≠ some i) →
      evalPoints durs a s0 pts = .ok s →
      alGet s.results i = alGet s0.results i := by
  intro pts
  induction pts with
  | nil =>
    intro s0 s _ hev
    rw [evalPoints_nil] at hev
    cases hev
    rfl
  | cons P rest ih =>
    intro s0 s hid hev
    rw [evalPoints_cons] at hev
    cases hs : stepPoint durs a s0 P with
    | error e => rw [hs] at hev; cases hev
    | ok s1 =>
      rw [hs] at hev
      have hrest := ih s1 s (fun R hR => hid R (List.mem_cons_of_mem P hR)) hev
      rw [hrest]
      obtain ⟨ok, n, ev, d, hrec⟩ := stepPoint_ok_record durs a s0 s1 P hs
      subst hrec
      rw [record_results]
      cases ht : truthy P.id with
      | none => rfl
      | some j =>
        rw [alGet_alSet]
        have hij : ¬(i = j) := by
          intro hij
          exact hid P (List.mem_cons_self P rest) (by rw [ht, hij])
        rw [if_neg hij]

/-- Claim C10: a point skipped because its non-empty dependency is not
recorded `ok=true` records `ok=false` under its own truthy id, and as
long as no intervening point rebinds that id, every later point
depending on it is itself skipped with `ok=false` and `durationMs=0`
(its validator never runs) and records `ok=false` under its own truthy
id in turn — failures propagate down a dependency chain. -/
theorem c10_transitive_skips :
    ∀ (durs : Nat → Rat) (answer : String) (pts : List Point) (st : EvalState)
      (P : Point) (d i : String),
      evalPoints durs answer emptyState pts = .ok st →
      P.depends_on = some d → d ≠ "" →
      alGet st.results d ≠ some true →
      truthy P.id = some i →
      ∃ st', stepPoint durs answer st P = .ok st' ∧
        alGet st'.results i = some false ∧
        (∃ n dt, st'.details = st.details ++ [dt] ∧ dt.ok = false ∧
          dt.duration_ms = 0 ∧ dt.note = n ∧
          (n = skipNotFoundNote d ∨ n = skipFailedNote d)) ∧
        ∀ (pts2 : List Point) (st'' : EvalState),
          (∀ R ∈ pts2, truthy R.id ≠ some i) →
          evalPoints durs answer st' pts2 = .ok st'' →
          ∀ Q : Point, Q.depends_on = some i →
            ∃ st3, stepPoint durs answer st'' Q = .ok st3 ∧
              (∃ dt2, st3.details = st''.details ++ [dt2] ∧ dt2.ok = false ∧
                dt2.duration_ms = 0 ∧ dt2.note = skipFailedNote i) ∧
              (∀ j, truthy Q.id = some j → alGet st3.results j = some false) := by
  intro durs answer pts st P d i hev hdep hne hnotok hid
  have htr : truthy P.depends_on = some d := by simp [truthy, hdep, hne]
  have hds0 : depStatus st P = (match alGet st.results d with
      | none => some (skipNotFoundNote d)
      | some false => some (skipFailedNote d)
      | some true => none) := by
    unfold depStatus
    rw [htr]
  have hskip : ∃ n, (n = skipNotFoundNote d ∨ n = skipFailedNote d) ∧
      depStatus st P = some n := by
    cases hres : alGet st.results d with
    | none => exact ⟨skipNotFoundNote d, Or.inl rfl, by rw [hds0, hres]⟩
    | some b =>
      cases b with
      | false => exact ⟨skipFailedNote d, Or.inr rfl, by rw [hds0, hres]⟩
      | true => exact absurd hres hnotok
  obtain ⟨n, hn, hds⟩ := hskip
  refine ⟨record st P false n Ev.vnone 0, stepPoint_skip durs answer st P n hds, ?_, ?_, ?_⟩
  · rw [record_results, hid, alGet_alSet, if_pos rfl]
  · exact ⟨n, _, record_details st P false n Ev.vnone 0, rfl, rfl, rfl, hn⟩
  · intro pts2 st'' hid2 hev2 Q hdepQ
    have hie : i ≠ "" := truthy_ne_empty P.id i hid
    have htrQ : truthy Q.depends_on = some i := by simp [truthy, hdepQ, hie]
    have hkeep : alGet st''.results i = some false := by
      rw [evalPoints_keepKey durs answer i pts2 _ st'' hid2 hev2]
      rw [record_results, hid, alGet_alSet, if_pos rfl]
    have hdsQ : depStatus st'' Q = some (skipFailedNote i) := by
      simp [depStatus, htrQ, hkeep]
    refine ⟨record st'' Q false (skipFailedNote i) Ev.vnone 0,
      stepPoint_skip durs answer st'' Q _ hdsQ, ?_, ?_⟩
    · exact ⟨_, record_details st'' Q false (skipFailedNote i) Ev.vnone 0, rfl, rfl, rfl⟩
    · intro j hj
      rw [record_results, hj, alGet_alSet, if_pos rfl]

/-- Witness for C10: with point `a` failing, point `b` (depending on
`a`, id `"b"`) is skipped and records false, and any point depending on
`"b"` is skipped in turn. -/
theorem c10_witness :
    ∃ st', stepPoint (fun _ => 0) "hello"
        ⟨1, 0, [("General", 1)], [],
          [⟨"N/A", some "a", "General", false, false, "Found 0/1 required keywords.",
            Ev.vnone, 0⟩],
          [("a", false)], 1⟩ ptB = .ok st' ∧
      alGet st'.results "b" = some false ∧
      (∃ n dt, st'.details =
          [⟨"N/A", some "a", "General", false, false, "Found 0/1 required keywords.",
            Ev.vnone, 0⟩] ++ [dt] ∧ dt.ok = false ∧
        dt.duration_ms = 0 ∧ dt.note = n ∧
        (n = skipNotFoundNote "a" ∨ n = skipFailedNote "a")) ∧
      ∀ (pts2 : List Point) (st'' : EvalState),
        (∀ R ∈ pts2, truthy R.id ≠ some "b") →
        evalPoints (fun _ => 0) "hello" st' pts2 = .ok st'' →
        ∀ Q : Point, Q.depends_on = some "b" →
          ∃ st3, stepPoint (fun _ => 0) "hello" st'' Q = .ok st3 ∧
            (∃ dt2, st3.details = st''.details ++ [dt2] ∧ dt2.ok = false ∧
              dt2.duration_ms = 0 ∧ dt2.note = skipFailedNote "b") ∧
            (∀ j, truthy Q.id = some j → alGet st3.results j = some false) :=
  c10_transitive_skips (fun _ => 0) "hello" [ptA1]
    ⟨1, 0, [("General", 1)], [],
      [⟨"N/A", some "a", "General", false, false, "Found 0/1 required keywords.",
        Ev.vnone, 0⟩],
      [("a", false)], 1⟩ ptB "a" "b"
    (by decide) rfl (by decide) (by decide) (by decide)

/-! ## Claim C6: the comparator -/

theorem foldl_max_mem (t : List Rat) :
    ∀ a : Rat, t.foldl (fun a x => if a < x then x else a) a = a ∨
      t.foldl (fun a x => if a < x then x else a) a ∈ t := by
  induction t with
  | nil => intro a; exact Or.inl rfl
  | cons y ys ih =>
    intro a
    simp only [List.foldl_cons]
    by_cases hy : a < y
    · rw [if_pos hy]
      rcases ih y with h | h
      · rw [h]; exact Or.inr (List.mem_cons_self y ys)
      · exact Or.inr (List.mem_cons_of_mem y h)
    · rw [if_neg hy]
      rcases ih a with h | h
      · exact Or.inl h
      · exact Or.inr (List.mem_cons_of_mem y h)

theorem foldl_max_ge (t : List Rat) :
    ∀ a : Rat, a ≤ t.foldl (fun a x => if a < x then x else a) a ∧
      ∀ x ∈ t, x ≤ t.foldl (fun a x => if a < x then x else a) a := by
  induction t with
  | nil => intro a; exact ⟨le_refl a, fun x hx => absurd hx (List.not_mem_nil x)⟩
  | cons y ys ih =>
    intro a
    have step : a ≤ (if a < y then y else a) ∧ y ≤ (if a < y then y else a) := by
      by_cases hy : a < y
      · rw [if_pos hy]; exact ⟨le_of_lt hy, le_refl y⟩
      · rw [if_neg hy]; exact ⟨le_refl a, le_of_not_lt hy⟩
    obtain ⟨ih1, ih2⟩ := ih (if a < y then y else a)
    refine ⟨le_trans step.1 ih1, ?_⟩
    intro x hx
    rcases List.mem_cons.mp hx with hx | hx
    · subst hx; exact le_trans step.2 ih1
    · exact ih2 x hx

theorem maxList_mem (l : List Rat) (h : l ≠ []) : maxList l ∈ l := by
  cases l with
  | nil => exact absurd rfl h
  | cons a t =>
    rcases foldl_max_mem t a with hm | hm
    · rw [show maxList (a :: t) = t.foldl (fun a x => if a < x then x else a) a from rfl, hm]
      exact List.mem_cons_self a t
    · exact List.mem_cons_of_mem a hm

theorem maxList_ge (l : List Rat) : ∀ x ∈ l, x ≤ maxList l := by
  cases l with
  | nil => intro x hx; exact absurd hx (List.not_mem_nil x)
  | cons a t =>
    intro x hx
    rcases List.mem_cons.mp hx with hx | hx
    · subst hx; exact (foldl_max_ge t x).1
    · exact (foldl_max_ge t a).2 x hx

theorem findIdx_eq_spec (l : List Rat) (m : Rat) (hm : m ∈ l) :
    l.get? (l.findIdx (fun x => x = m)) = some m ∧
    ∀ j r, j < l.findIdx (fun x => x = m) → l.get? j = some r → r ≠ m := by
  induction l with
  | nil => exact absurd hm (List.not_mem_nil m)
  | cons a t ih =>
    by_cases ha : a = m
    · have h0 : (a :: t).findIdx (fun x => x = m) = 0 := by
        simp [List.findIdx_cons, ha]
      rw [h0]
      exact ⟨by simp [ha], fun j r hj => absurd hj (Nat.not_lt_zero j)⟩
    · have hmt : m ∈ t := by
        rcases List.mem_cons.mp hm with h | h
        · exact absurd h.symm ha
        · exact h
      have hstep : (a :: t).findIdx (fun x => x = m) = t.findIdx (fun x => x = m) + 1 := by
        simp [List.findIdx_cons, ha]
      obtain ⟨ih1, ih2⟩ := ih hmt
      rw [hstep]
      refine ⟨by simpa using ih1, ?_⟩
      intro j r hj hg
      cases j with
      | zero =>
        have har : a = r := by simpa using hg
        rw [← har]
        exact ha
      | succ k =>
        have hk : k < t.findIdx (fun x => x = m) := Nat.lt_of_succ_lt_succ hj
        exact ih2 k r hk (by simpa using hg)

theorem zip_get (as : List String) :
    ∀ (bs : List (List Point)) (i : Nat) (a : String) (b : List Point),
      as.get? i = some a → bs.get? i = some b → (as.zip bs).get? i = some (a, b) := by
  induction as with
  | nil => intro bs i a b ha; cases i <;> cases ha
  | cons x xs ih =>
    intro bs i a b ha hb
    cases bs with
    | nil => cases i <;> cases hb
    | cons y ys =>
      cases i with
      | zero =>
        cases ha; cases hb; rfl
      | succ k =>
        show (xs.zip ys).get? k = some (a, b)
        exact ih ys k a b ha hb

theorem evalAll_spec (durs : Nat → Nat → Rat) :
    ∀ (pairs : List (String × List Point)) (i : Nat)
      (reps : List (Rat × List (String × Rat) × List Detail)),
      evalAll durs i pairs = .ok reps →
      reps.length = pairs.length ∧
      ∀ j a ps, pairs.get? j = some (a, ps) →
        ∃ r, reps.get? j = some r ∧ evaluate_answer (durs (i + j)) a ps = .ok r := by
  intro pairs
  induction pairs with
  | nil =>
    intro i reps h
    cases h
    exact ⟨rfl, fun j a ps hj => by cases j <;> cases hj⟩
  | cons pr rest ih =>
    intro i reps h
    unfold evalAll at h
    cases he : evaluate_answer (durs i) pr.1 pr.2 with
    | error e =>
      rw [he] at h; cases h
    | ok r =>
      rw [he] at h
      cases hrest : evalAll durs (i + 1) rest with
      | error e => rw [hrest] at h; cases h
      | ok rs =>
        rw [hrest] at h
        cases h
        obtain ⟨ihlen, ihcorr⟩ := ih (i + 1) rs hrest
        refine ⟨by simp [ihlen], ?_⟩
        intro j a ps hj
        cases j with
        | zero =>
          have hpr : pr = (a, ps) := by simpa using hj
          subst hpr
          exact ⟨r, rfl, by simpa using he⟩
        | succ k =>
          have hjk : rest.get? k = some (a, ps) := by simpa using hj
          obtain ⟨r2, hr2, hev2⟩ := ihcorr k a ps hjk
          refine ⟨r2, by simpa using hr2, ?_⟩
          have harith : i + 1 + k = i + (k + 1) := by omega
          rw [← harith]
          exact hev2

/-- Claim C6: `compare_answers` on the empty input returns the sentinel
`-1` with no reports; on `N` answers with `N` rubrics (when it returns),
it evaluates each answer independently with `evaluate_answer` and
returns the index of the maximum score, resolving ties to the lowest
index. -/
theorem c6_compare_winner :
    (∀ (durs : Nat → Nat → Rat) (ptss : List (List Point)),
      compare_answers durs [] ptss = .ok (-1, [])) ∧
    ∀ (durs : Nat → Nat → Rat) (answers : List String) (ptss : List (List Point))
      (w : Int) (reps : List (Rat × List (String × Rat) × List Detail)),
      answers ≠ [] → answers.length = ptss.length →
      compare_answers durs answers ptss = .ok (w, reps) →
      reps.length = answers.length ∧
      (∀ i a ps, answers.get? i = some a → ptss.get? i = some ps →
        ∃ r, reps.get? i = some r ∧ evaluate_answer (durs i) a ps = .ok r) ∧
      ∃ wn : Nat, w = (wn : Int) ∧
        ∃ rw, reps.get? wn = some rw ∧
          (∀ i r, reps.get? i = some r → r.1 ≤ rw.1) ∧
          (∀ j r, j < wn → reps.get? j = some r → r.1 < rw.1) := by
  constructor
  · intro durs ptss; rfl
  · intro durs answers ptss w reps hne hlen hcomp
    have hempty : answers.isEmpty = false := by
      cases answers with
      | nil => exact absurd rfl hne
      | cons x xs => rfl
    unfold compare_answers at hcomp
    rw [hempty] at hcomp
    simp only [Bool.false_eq_true, if_false] at hcomp
    cases hall : evalAll durs 0 (answers.zip ptss) with
    | error e => rw [hall] at hcomp; cases hcomp
    | ok all =>
      rw [hall] at hcomp
      obtain ⟨hlenall, hcorr⟩ := evalAll_spec durs (answers.zip ptss) 0 all hall
      have hzlen : (answers.zip ptss).length = answers.length := by
        rw [List.length_zip, hlen, Nat.min_self]
      have hallne : all ≠ [] := by
        intro hnil
        rw [hnil] at hlenall
        cases answers with
        | nil => exact absurd rfl hne
        | cons x xs =>
          rw [hzlen] at hlenall
          cases hlenall
      have hallempty : all.isEmpty = false := by
        cases all with
        | nil => exact absurd rfl hallne
        | cons x xs => rfl
      have hcomp2 : (if all.isEmpty = true then
          (Except.ok (-1, []) : Except PyErr (Int × List (Rat × List (String × Rat) × List Detail)))
        else Except.ok
          ((((all.map (fun r => r.1)).findIdx
              (fun x => x = maxList (all.map (fun r => r.1)))) : Int), all)) =
          Except.ok (w, reps) := hcomp
      rw [hallempty] at hcomp2
      simp only [Bool.false_eq_true, if_false] at hcomp2
      injection hcomp2 with hcomp3
      injection hcomp3 with hw hreps
      subst hreps
      refine ⟨by rw [hlenall, hzlen], ?_, ?_⟩
      · intro i a ps ha hp
        obtain ⟨r, hr, hev⟩ := hcorr i a ps (zip_get answers ptss i a ps ha hp)
        refine ⟨r, hr, ?_⟩
        simpa using hev
      · have hsne : all.map (fun r => r.1) ≠ [] := by
          intro hnil
          exact hallne (List.map_eq_nil.mp hnil)
        have hmem := maxList_mem (all.map (fun r => r.1)) hsne
        obtain ⟨hget, hbefore⟩ := findIdx_eq_spec (all.map (fun r => r.1))
          (maxList (all.map (fun r => r.1))) hmem
        refine ⟨(all.map (fun r => r.1)).findIdx
            (fun x => x = maxList (all.map (fun r => r.1))), ?_, ?_⟩
        · rw [← hw]
        · rw [List.get?_map] at hget
          cases hrw : all.get? ((all.map (fun r => r.1)).findIdx
              (fun x => x = maxList (all.map (fun r => r.1)))) with
          | none => rw [hrw] at hget; cases hget
          | some rw0 =>
            rw [hrw] at hget
            have hrw1 : rw0.1 = maxList (all.map (fun r => r.1)) := by
              injection hget
            refine ⟨rw0, rfl, ?_, ?_⟩
            · intro i r hr
              rw [hrw1]
              have hmem2 : r.1 ∈ all.map (fun t => t.1) :=
                List.mem_map_of_mem _ (List.get?_mem hr)
              exact maxList_ge (all.map (fun t => t.1)) r.1 hmem2
            · intro j r hj hr
              have hle : r.1 ≤ rw0.1 := by
                rw [hrw1]
                have hmem2 : r.1 ∈ all.map (fun t => t.1) :=
                  List.mem_map_of_mem _ (List.get?_mem hr)
                exact maxList_ge (all.map (fun t => t.1)) r.1 hmem2
              have hneq : r.1 ≠ maxList (all.map (fun r => r.1)) :=
                hbefore j r.1 hj (by rw [List.get?_map, hr]; rfl)
              rcases lt_or_eq_of_le hle with hlt | heq
              · exact hlt
              · rw [hrw1] at heq
                exact absurd heq hneq

set_option synthInstance.maxSize 1024 in
/-- Witness for C6 at two answers against the same keyword rubric: the
comparator returns winner index `1` with one report per answer. -/
theorem c6_witness : c6reps.length = ["bye", "hello"].length :=
  (c6_compare_winner.2 (fun _ _ => 0) ["bye", "hello"] [[kwHello], [kwHello]] 1 c6reps
    (by decide) (by decide) (by decide)).1

end Lemmas

end QuantaGlia
